import Mathlib

/-!
Shallow embedding of `src/uer/utils/data.py` (the UER-py corpus-to-instance
pipeline): the masking function, the pair truncation, the padding loops, the
MLM+NSP and NSP instance builders, the per-line builders (plain-LM,
classification, MLM-only, seq2seq), the corpus partitioner, the shard-loader
buffer machinery and the build-worker read loop.

Randomness is modelled by oracle streams: `fl : Nat → ℚ` yields the
successive values of `random.random()` and `ri : Nat → Nat` yields raw
entropy for `random.randint`, both consumed at explicit cursor positions
`fi` and `ii` which are threaded through the functions exactly in the order
the Python code draws.  Unbounded `while True` loops are modelled with fuel
and return `none` when the fuel runs out or when the Python code would raise
an exception.
-/

/-- Modelled from the spec: the reserved PAD vocabulary id of
`uer/utils/constants.py`, which is not under `src/`.  The spec fixes the
PAD id to 0 (its scenario shows segment marker 0 standing for PAD) and
requires PAD, CLS, SEP and MASK to be pairwise distinct reserved ids. -/
def PAD_ID : Nat := 0

/-- Modelled from the spec: the reserved CLS vocabulary id. -/
def CLS_ID : Nat := 2

/-- Modelled from the spec: the reserved SEP vocabulary id. -/
def SEP_ID : Nat := 3

/-- Modelled from the spec: the reserved MASK vocabulary id. -/
def MASK_ID : Nat := 4

/-- Embedding of `random.randint(lo, hi)` (both bounds inclusive): the raw
entropy value at int-cursor `ii` reduced into the requested range. -/
def randintM (ri : Nat → Nat) (ii lo hi : Nat) : Nat :=
  lo + ri ii % (hi + 1 - lo)

/-- The membership test `rdi in [CLS_ID, SEP_ID, MASK_ID]` from `mask_seq`. -/
def structuralDraw (v : Nat) : Prop :=
  v = CLS_ID ∨ v = SEP_ID ∨ v = MASK_ID

instance (v : Nat) : Decidable (structuralDraw v) := by
  unfold structuralDraw; infer_instance

/-- Embedding of the redraw loop of `mask_seq` (data.py lines 29-32):
`while True: rdi = random.randint(1, vocab_size-1); if rdi not in
[CLS_ID, SEP_ID, MASK_ID]: break`.  Returns the accepted draw and the new
int-cursor, or `none` when the fuel runs out. -/
def retryDraw (V : Nat) (ri : Nat → Nat) : Nat → Nat → Option (Nat × Nat)
  | _, 0 => none
  | ii, fuel + 1 =>
    let rdi := randintM ri ii 1 (V - 1)
    if structuralDraw rdi then retryDraw V ri (ii + 1) fuel
    else some (rdi, ii + 1)

/-- Embedding of `mask_seq(src, vocab_size)` (data.py lines 12-37).  For each
position: CLS/SEP positions get mask-target PAD and are left unchanged (no
draw is consumed); otherwise one float `prob` is drawn, and if
`prob < 0.15` the position is a masking candidate, rescaled by `prob /= 0.15`
into the 0.8 / 0.1 / 0.1 bands (MASK replacement, random replacement via the
redraw loop, keep), with mask-target the original token; otherwise the token
is kept with mask-target PAD.  Returns the mutated sequence, the target
sequence and the final cursors. -/
def mask_seq (V : Nat) (fl : Nat → ℚ) (ri : Nat → Nat) (fuel : Nat) :
    List Nat → Nat → Nat → Option (List Nat × List Nat × Nat × Nat)
  | [], fi, ii => some ([], [], fi, ii)
  | t :: rest, fi, ii =>
    if t = CLS_ID ∨ t = SEP_ID then
      (mask_seq V fl ri fuel rest fi ii).map
        (fun o => (t :: o.1, PAD_ID :: o.2.1, o.2.2))
    else
      let prob := fl fi
      if prob < (15 : ℚ)/100 then
        let prob2 := prob / ((15 : ℚ)/100)
        if prob2 < (8 : ℚ)/10 then
          (mask_seq V fl ri fuel rest (fi + 1) ii).map
            (fun o => (MASK_ID :: o.1, t :: o.2.1, o.2.2))
        else if prob2 < (9 : ℚ)/10 then
          match retryDraw V ri ii fuel with
          | none => none
          | some (v, ii2) =>
            (mask_seq V fl ri fuel rest (fi + 1) ii2).map
              (fun o => (v :: o.1, t :: o.2.1, o.2.2))
        else
          (mask_seq V fl ri fuel rest (fi + 1) ii).map
            (fun o => (t :: o.1, t :: o.2.1, o.2.2))
      else
        (mask_seq V fl ri fuel rest (fi + 1) ii).map
          (fun o => (t :: o.1, PAD_ID :: o.2.1, o.2.2))

/-- Embedding of `truncate_seq_pair(tokens_a, tokens_b, max_num_tokens)`
(data.py lines 229-242 and 862-875).  While the combined length exceeds
`maxNT`, one token is removed from the longer list (ties trim `tokens_b`),
from the front when the drawn float is below 0.5 and from the back
otherwise.  Removing from an empty list raises in Python (IndexError, or the
NspDataset assert), modelled as `none`.  `maxNT` is an `Int` because
`max_num_tokens = seq_length - 3` can be negative in Python. -/
def truncate_seq_pair (fl : Nat → ℚ) (a b : List Nat) (maxNT : Int) (fi : Nat) :
    Option (List Nat × List Nat × Nat) :=
  if (a.length : Int) + (b.length : Int) ≤ maxNT then some (a, b, fi)
  else
    if b.length < a.length then
      if a = [] then none
      else if fl fi < (1 : ℚ)/2 then truncate_seq_pair fl a.tail b maxNT (fi + 1)
      else truncate_seq_pair fl a.dropLast b maxNT (fi + 1)
    else
      if b = [] then none
      else if fl fi < (1 : ℚ)/2 then truncate_seq_pair fl a b.tail maxNT (fi + 1)
      else truncate_seq_pair fl a b.dropLast maxNT (fi + 1)
termination_by a.length + b.length
decreasing_by
  · have : a ≠ [] := by assumption
    have h1 : 0 < a.length := List.length_pos.mpr this
    simp [List.length_tail]; omega
  · have : a ≠ [] := by assumption
    have h1 : 0 < a.length := List.length_pos.mpr this
    simp [List.length_dropLast]; omega
  · have : b ≠ [] := by assumption
    have h1 : 0 < b.length := List.length_pos.mpr this
    simp [List.length_tail]; omega
  · have : b ≠ [] := by assumption
    have h1 : 0 < b.length := List.length_pos.mpr this
    simp [List.length_dropLast]; omega

/-- Embedding of the right-padding loop
`while len(src) != seq_length: src.append(PAD); tgt.append(PAD);
seg.append(PAD)` appearing in the builders; the loop is keyed on the length
of the first list.  Fuel-based: returns `none` when the loop would not
terminate (first list longer than `n`). -/
def padWhile3 (n : Nat) :
    Nat → List Nat × List Nat × List Nat → Option (List Nat × List Nat × List Nat)
  | 0, _ => none
  | fuel + 1, (s, t, g) =>
    if s.length = n then some (s, t, g)
    else padWhile3 n fuel (s ++ [PAD_ID], t ++ [PAD_ID], g ++ [PAD_ID])

/-- The padding loop on three lists with enough fuel for every terminating
Python run. -/
def pad3 (stg : List Nat × List Nat × List Nat) (n : Nat) :
    Option (List Nat × List Nat × List Nat) :=
  padWhile3 n (n + 1) stg

/-- The padding loop on two lists (src and seg), keyed on the first. -/
def padWhile2 (n : Nat) :
    Nat → List Nat × List Nat → Option (List Nat × List Nat)
  | 0, _ => none
  | fuel + 1, (s, g) =>
    if s.length = n then some (s, g)
    else padWhile2 n fuel (s ++ [PAD_ID], g ++ [PAD_ID])

/-- The padding loop on two lists with enough fuel. -/
def pad2 (sg : List Nat × List Nat) (n : Nat) : Option (List Nat × List Nat) :=
  padWhile2 n (n + 1) sg

/-- The padding loop on one list (the seq2seq target). -/
def padWhile1 (n : Nat) : Nat → List Nat → Option (List Nat)
  | 0, _ => none
  | fuel + 1, s =>
    if s.length = n then some s
    else padWhile1 n fuel (s ++ [PAD_ID])

/-- The padding loop on one list with enough fuel. -/
def pad1 (s : List Nat) (n : Nat) : Option (List Nat) :=
  padWhile1 n (n + 1) s

/-- Embedding of the chunk-accumulation part of `create_ins_from_doc`
(data.py lines 150-154 and 785-789): starting at sentence index `i` with
accumulated token count `cur`, sentences are appended to the current chunk
until the document ends or the count reaches `target_seq_length`; returns
the index of the sentence at which the chunk is flushed. -/
def scanChunk (doc : List (List Nat)) (target : Int) : Nat → Nat → Nat
  | i, cur =>
    if doc.length ≤ i + 1 ∨ target ≤ ((cur + (doc.getD i []).length : Nat) : Int)
      then i
    else scanChunk doc target (i + 1) (cur + (doc.getD i []).length)
termination_by i => doc.length - i
decreasing_by omega

/-- Embedding of the random-document pick (data.py lines 172-175 and
807-810): `for _ in range(10): idx = random.randint(0, n-1); if idx !=
document_index: break`; the last draw is kept even when it equals the
current document.  Called with fuel 10. -/
def pickDoc (ri : Nat → Nat) (docIdx numDocs : Nat) : Nat → Nat → Nat × Nat
  | ii, 0 => (docIdx, ii)
  | ii, fuel + 1 =>
    if randintM ri ii 0 (numDocs - 1) ≠ docIdx then
      (randintM ri ii 0 (numDocs - 1), ii + 1)
    else if fuel = 0 then (randintM ri ii 0 (numDocs - 1), ii + 1)
    else pickDoc ri docIdx numDocs (ii + 1) fuel

/-- Embedding of the segment-B accumulation for the random-next case
(data.py lines 179-182 and 814-817): `for j in range(random_start, len):
tokens_b.extend(doc[j]); if len(tokens_b) >= target_b_length: break`. -/
def accumB (rdoc : List (List Nat)) (targetB : Int) : Nat → List Nat → List Nat
  | j, b =>
    if rdoc.length ≤ j then b
    else if targetB ≤ (((b ++ rdoc.getD j []).length : Nat) : Int) then
      b ++ rdoc.getD j []
    else accumB rdoc targetB (j + 1) (b ++ rdoc.getD j [])
termination_by j => rdoc.length - j
decreasing_by omega

/-- The split point `a_end` together with the int cursor after it: drawn
uniformly from [1, len-1] when the chunk has at least two sentences, else
fixed to 1 (data.py lines 156-158 and 791-793). -/
def chunkAEnd (ri : Nat → Nat) (ii len : Nat) : Nat × Nat :=
  if 2 ≤ len then (randintM ri ii 1 (len - 1), ii + 1) else (1, ii)

/-- The random-next decision `len(current_chunk) == 1 or random.random() <
0.5` together with the float cursor after it: the float is only drawn when
the chunk has more than one sentence (Python short-circuit). -/
def chunkIsRand (fl : Nat → ℚ) (fi len : Nat) : Bool × Nat :=
  if len = 1 then (true, fi) else (decide (fl fi < (1 : ℚ)/2), fi + 1)

/-- The random document chosen for the random-next case together with the
int cursor after the pick loop. -/
def chunkPick (ri : Nat → Nat) (docIdx numDocs ii : Nat) : Nat × Nat :=
  pickDoc ri docIdx numDocs ii 10

/-- Embedding of the per-chunk segment construction shared by
`BertDataset.create_ins_from_doc` and `NspDataset.create_ins_from_doc`
(data.py lines 156-191 and 791-826): choose the split point `a_end`, build
`tokens_a`, decide random-next versus actual-next, and build `tokens_b`
(random-next: sentences of a randomly picked document from a random start,
taken until `target_seq_length - len(tokens_a)` is reached; actual-next:
the rest of the chunk).  Returns
(tokens_a, tokens_b, is_random_next, consumed, fi, ii) where `consumed` is
the net number of chunk sentences the outer loop moves past (`a_end` after
the random-next rewind, the whole chunk for actual-next).  `none` models
the ValueError Python raises when `randint` is called on an empty random
document. -/
def chunkSegments (allDocs : List (List (List Nat))) (docIdx : Nat)
    (chunk : List (List Nat)) (target : Int) (fl : Nat → ℚ) (ri : Nat → Nat)
    (fi ii : Nat) : Option (List Nat × List Nat × Nat × Nat × Nat × Nat) :=
  if (chunkIsRand fl fi chunk.length).1 then
    if (allDocs.getD
        (chunkPick ri docIdx allDocs.length
          (chunkAEnd ri ii chunk.length).2).1 []).length = 0 then none
    else
      some ((chunk.take (chunkAEnd ri ii chunk.length).1).flatten,
        accumB
          (allDocs.getD
            (chunkPick ri docIdx allDocs.length
              (chunkAEnd ri ii chunk.length).2).1 [])
          (target -
            (((chunk.take (chunkAEnd ri ii chunk.length).1).flatten.length :
              Nat) : Int))
          (randintM ri
            (chunkPick ri docIdx allDocs.length
              (chunkAEnd ri ii chunk.length).2).2 0
            ((allDocs.getD
              (chunkPick ri docIdx allDocs.length
                (chunkAEnd ri ii chunk.length).2).1 []).length - 1))
          [],
        1, (chunkAEnd ri ii chunk.length).1,
        (chunkIsRand fl fi chunk.length).2,
        (chunkPick ri docIdx allDocs.length
          (chunkAEnd ri ii chunk.length).2).2 + 1)
  else
    some ((chunk.take (chunkAEnd ri ii chunk.length).1).flatten,
      (chunk.drop (chunkAEnd ri ii chunk.length).1).flatten, 0, chunk.length,
      (chunkIsRand fl fi chunk.length).2, (chunkAEnd ri ii chunk.length).2)

/-- The per-chunk segments followed by the joint truncation: the value the
two builders hold at the `assert len(tokens_a) >= 1 / len(tokens_b) >= 1`
site (data.py lines 193-196 and 828-831). -/
def chunkPairTrunc (allDocs : List (List (List Nat))) (docIdx : Nat)
    (chunk : List (List Nat)) (target maxNT : Int) (fl : Nat → ℚ)
    (ri : Nat → Nat) (fi ii : Nat) :
    Option (List Nat × List Nat × Nat × Nat × Nat × Nat) :=
  match chunkSegments allDocs docIdx chunk target fl ri fi ii with
  | none => none
  | some (a, b, isr, c, fi1, ii1) =>
    match truncate_seq_pair fl a b maxNT fi1 with
    | none => none
    | some (a2, b2, fi2) => some (a2, b2, isr, c, fi2, ii1)

/-- The assembled token sequence `[CLS] + A + [SEP] + B + [SEP]`
(data.py lines 198-213 and 833-848). -/
def assembleSrc (a b : List Nat) : List Nat :=
  CLS_ID :: (a ++ SEP_ID :: (b ++ [SEP_ID]))

/-- The assembled segment-id sequence: 1 for CLS, A and the first SEP, 2 for
B and the second SEP. -/
def assembleSeg (a b : List Nat) : List Nat :=
  1 :: (List.replicate a.length 1 ++ 1 :: (List.replicate b.length 2 ++ [2]))

/-- Embedding of the main loop of `BertDataset.create_ins_from_doc`
(data.py lines 149-227): scan a chunk, build and truncate the two segments,
assemble, mask, right-pad to `seq_length` and emit
(src, tgt_mlm, is_random_next, seg); the loop index then advances by the
consumed sentence count (the random-next case rewinds the unused
sentences).  Fuel-based. -/
def bertLoop (allDocs : List (List (List Nat))) (docIdx : Nat)
    (doc : List (List Nat)) (target maxNT : Int) (seqLen V : Nat)
    (fl : Nat → ℚ) (ri : Nat → Nat) (retryFuel : Nat) :
    Nat → Nat → Nat → Nat →
    Option (List (List Nat × List Nat × Nat × List Nat) × Nat × Nat)
  | 0, _, _, _ => none
  | fuel + 1, i, fi, ii =>
    if doc.length ≤ i then some ([], fi, ii)
    else
      let j := scanChunk doc target i 0
      let chunk := (doc.drop i).take (j - i + 1)
      match chunkPairTrunc allDocs docIdx chunk target maxNT fl ri fi ii with
      | none => none
      | some (a2, b2, isr, consumed, fi2, ii2) =>
        match mask_seq V fl ri retryFuel (assembleSrc a2 b2) fi2 ii2 with
        | none => none
        | some (srcM, tgt, fi3, ii3) =>
          match pad3 (srcM, tgt, assembleSeg a2 b2) seqLen with
          | none => none
          | some (s, t, g) =>
            match bertLoop allDocs docIdx doc target maxNT seqLen V fl ri
                retryFuel fuel (i + consumed) fi3 ii3 with
            | none => none
            | some (rest, fi4, ii4) => some ((s, t, isr, g) :: rest, fi4, ii4)

/-- Embedding of `BertDataset.create_ins_from_doc` (data.py lines 140-227):
the target length is `max_num_tokens = seq_length - 3`, shortened with
probability `short_seq_prob` to a uniform value in [2, max_num_tokens]
(that `randint` raises when `max_num_tokens < 2`, modelled as `none`). -/
def bertCreateInsFromDoc (allDocs : List (List (List Nat))) (docIdx : Nat)
    (seqLen : Nat) (shortProb : ℚ) (V retryFuel : Nat) (fl : Nat → ℚ)
    (ri : Nat → Nat) (fi ii : Nat) :
    Option (List (List Nat × List Nat × Nat × List Nat) × Nat × Nat) :=
  let doc := allDocs.getD docIdx []
  let maxNT : Int := (seqLen : Int) - 3
  if fl fi < shortProb then
    if maxNT < 2 then none
    else
      let t : Int := (randintM ri ii 2 maxNT.toNat : Int)
      bertLoop allDocs docIdx doc t maxNT seqLen V fl ri retryFuel
        (doc.length + 1) 0 (fi + 1) (ii + 1)
  else
    bertLoop allDocs docIdx doc maxNT maxNT seqLen V fl ri retryFuel
      (doc.length + 1) 0 (fi + 1) ii

/-- Embedding of the main loop of `NspDataset.create_ins_from_doc`
(data.py lines 784-860): as the Bert loop but with no masking, with the two
asserts `len(tokens_a) >= 1` and `len(tokens_b) >= 1` active (an assert
failure aborts the worker, modelled as `none`), and emitting
(src, is_random_next, seg). -/
def nspLoop (allDocs : List (List (List Nat))) (docIdx : Nat)
    (doc : List (List Nat)) (target maxNT : Int) (seqLen : Nat)
    (fl : Nat → ℚ) (ri : Nat → Nat) :
    Nat → Nat → Nat → Nat →
    Option (List (List Nat × Nat × List Nat) × Nat × Nat)
  | 0, _, _, _ => none
  | fuel + 1, i, fi, ii =>
    if doc.length ≤ i then some ([], fi, ii)
    else
      let j := scanChunk doc target i 0
      let chunk := (doc.drop i).take (j - i + 1)
      match chunkPairTrunc allDocs docIdx chunk target maxNT fl ri fi ii with
      | none => none
      | some (a2, b2, isr, consumed, fi2, ii2) =>
        if 1 ≤ a2.length ∧ 1 ≤ b2.length then
          match pad2 (assembleSrc a2 b2, assembleSeg a2 b2) seqLen with
          | none => none
          | some (s, g) =>
            match nspLoop allDocs docIdx doc target maxNT seqLen fl ri
                fuel (i + consumed) fi2 ii2 with
            | none => none
            | some (rest, fi3, ii3) => some ((s, isr, g) :: rest, fi3, ii3)
        else none

/-- Embedding of `NspDataset.create_ins_from_doc` (data.py lines 777-860):
no short-sequence sampling, the target length is always
`max_num_tokens = seq_length - 3`. -/
def nspCreateInsFromDoc (allDocs : List (List (List Nat))) (docIdx : Nat)
    (seqLen : Nat) (fl : Nat → ℚ) (ri : Nat → Nat) (fi ii : Nat) :
    Option (List (List Nat × Nat × List Nat) × Nat × Nat) :=
  let doc := allDocs.getD docIdx []
  let maxNT : Int := (seqLen : Int) - 3
  nspLoop allDocs docIdx doc maxNT maxNT seqLen fl ri (doc.length + 1) 0 fi ii

/-- Embedding of the per-line instance construction of `LmDataset.worker`
(data.py lines 372-386): `tgt = src[1:]; src = src[:-1]; seg = [1]*len(src)`
then truncate to `seq_length` or right-pad with PAD. -/
def lmLineInstance (tokens : List Nat) (seqLen : Nat) :
    Option (List Nat × List Nat × List Nat) :=
  let tgt := tokens.drop 1
  let src := tokens.dropLast
  let seg := List.replicate src.length 1
  if seqLen ≤ src.length then
    some (src.take seqLen, tgt.take seqLen, seg.take seqLen)
  else pad3 (src, tgt, seg) seqLen

/-- Embedding of the per-line instance construction of `ClsDataset.worker`
(data.py lines 502-513): tokenized text with scalar label, truncated or
right-padded. -/
def clsLineInstance (label : Int) (tokens : List Nat) (seqLen : Nat) :
    Option (List Nat × Int × List Nat) :=
  let seg := List.replicate tokens.length 1
  if seqLen ≤ tokens.length then
    some (tokens.take seqLen, label, seg.take seqLen)
  else (pad2 (tokens, seg) seqLen).map (fun p => (p.1, label, p.2))

/-- Embedding of the per-line instance construction of `MlmDataset.worker`
(data.py lines 630-643): mask the tokenized line, then truncate or
right-pad src, tgt and seg. -/
def mlmLineInstance (V : Nat) (fl : Nat → ℚ) (ri : Nat → Nat)
    (retryFuel : Nat) (tokens : List Nat) (seqLen fi ii : Nat) :
    Option ((List Nat × List Nat × List Nat) × Nat × Nat) :=
  match mask_seq V fl ri retryFuel tokens fi ii with
  | none => none
  | some (src, tgt, fi1, ii1) =>
    let seg := List.replicate src.length 1
    if seqLen ≤ src.length then
      some ((src.take seqLen, tgt.take seqLen, seg.take seqLen), fi1, ii1)
    else (pad3 (src, tgt, seg) seqLen).map (fun p => (p, fi1, ii1))

/-- Embedding of the per-line instance construction of `S2sDataset.worker`
(data.py lines 986-1001): source tokens with seg truncated or right-padded,
target tokens truncated or right-padded independently. -/
def s2sLineInstance (srcTok tgtTok : List Nat) (seqLen : Nat) :
    Option (List Nat × List Nat × List Nat) :=
  let seg := List.replicate srcTok.length 1
  let sp := if seqLen ≤ srcTok.length then some (srcTok.take seqLen, seg.take seqLen)
    else pad2 (srcTok, seg) seqLen
  let tp := if seqLen ≤ tgtTok.length then some (tgtTok.take seqLen)
    else pad1 tgtTok seqLen
  match sp, tp with
  | some sg, some t => some (sg.1, t, sg.2)
  | _, _ => none

/-- Embedding of the corpus partition arithmetic in every `build_and_save`
(data.py lines 79-81, 348-350, 477-479, 606-608, 732-734, 958-960): worker
`i` of `W` over a corpus of size `S` is assigned the range
`[i*S//W, (i+1)*S//W)`; this is the left endpoint. -/
def partStart (S W i : Nat) : Nat := i * S / W

/-- State of a `BertDataLoader` (data.py lines 248-302): the in-memory
buffer, the consumption cursors, the repeat-read flag, the read position in
the shard file (in batches) and a counter of `pickle.load` attempts. -/
structure BLoader where
  buffer : List Nat
  start : Nat
  endPos : Nat
  repeatRead : Bool
  filePos : Nat
  loads : Nat

/-- Embedding of the refill read loop of `BertDataLoader._fill_buf`
(data.py lines 268-284): repeatedly `pickle.load`; on EOF either stop (when
the dataset never needed repeat reading) or seek to the start and load
again; extend the buffer and mark repeat-read once the buffer exceeds the
configured capacity.  The shard file is a list of instance batches; every
`pickle.load` attempt (successful or EOF) increments `loads`.  `none`
models fuel exhaustion or the uncaught EOFError of reloading an empty
file. -/
def fillBufLoop (file : List (List Nat)) (bufSize : Nat) :
    Nat → BLoader → Option BLoader
  | 0, _ => none
  | fuel + 1, s =>
    if h : s.filePos < file.length then
      if bufSize < (s.buffer ++ file.get ⟨s.filePos, h⟩).length then
        some ⟨s.buffer ++ file.get ⟨s.filePos, h⟩, s.start, s.endPos, true,
          s.filePos + 1, s.loads + 1⟩
      else
        fillBufLoop file bufSize fuel
          ⟨s.buffer ++ file.get ⟨s.filePos, h⟩, s.start, s.endPos,
            s.repeatRead, s.filePos + 1, s.loads + 1⟩
    else
      if s.repeatRead = false then
        some ⟨s.buffer, s.start, s.endPos, false, s.filePos, s.loads + 1⟩
      else
        match file with
        | [] => none
        | batch :: _ =>
          if bufSize < (s.buffer ++ batch).length then
            some ⟨s.buffer ++ batch, s.start, s.endPos, true, 1, s.loads + 2⟩
          else
            fillBufLoop file bufSize fuel
              ⟨s.buffer ++ batch, s.start, s.endPos, s.repeatRead, 1,
                s.loads + 2⟩

/-- Embedding of `BertDataLoader._fill_buf` (data.py lines 261-289): when
the buffer is non-empty and repeat-read was never set, only reshuffle the
buffer in place and reset the cursors; otherwise clear the buffer, run the
read loop, then shuffle and reset the cursors.  `sh` is the shuffle oracle
(the identity when shuffling is disabled). -/
def fillBuf (file : List (List Nat)) (bufSize : Nat)
    (sh : List Nat → List Nat) (fuel : Nat) (s : BLoader) : Option BLoader :=
  if 0 < s.buffer.length ∧ s.repeatRead = false then
    some ⟨sh s.buffer, 0, (sh s.buffer).length, s.repeatRead, s.filePos, s.loads⟩
  else
    match fillBufLoop file bufSize fuel
        ⟨[], s.start, s.endPos, s.repeatRead, s.filePos, s.loads⟩ with
    | none => none
    | some s1 =>
      some ⟨sh s1.buffer, 0, (sh s1.buffer).length, s1.repeatRead, s1.filePos,
        s1.loads⟩

/-- Embedding of the batch slice taken by `BertDataLoader.__iter__`
(data.py line 301): `buffer[start + proc_id*batch_size : start +
(proc_id+1)*batch_size]`; a Python slice clamps at the end of the list. -/
def iterSlice (buffer : List Nat) (start bs pid : Nat) : List Nat :=
  (buffer.drop (start + pid * bs)).take bs

/-- Embedding of the cursor advance of `BertDataLoader.__iter__`
(data.py line 302): `start += batch_size * proc_num`. -/
def iterAdvance (start bs pn : Nat) : Nat := start + bs * pn

/-- Embedding of `BertDataLoader._empty` (data.py lines 291-292):
`start + batch_size*proc_num >= end`. -/
def loaderEmpty (start bs pn endPos : Nat) : Bool :=
  decide (endPos ≤ start + bs * pn)

/-- The buffer index read by consumer `pid` at offset `j` of its batch in
iteration step `k`, all consumers having started from cursor `s0` and each
step advancing the cursor by `bs * pn` (from `iterSlice` and
`iterAdvance`). -/
def sliceIdx (s0 bs pn pid k j : Nat) : Nat :=
  s0 + k * (bs * pn) + pid * bs + j

/-- Outcome of one `f.readline()` attempt in a build worker: a decode error
(the bare except path), a blank line (including the empty string returned
at EOF forever), or a tokenized non-blank line. -/
inductive LineRead
  | err : LineRead
  | blank : LineRead
  | sent : List Nat → LineRead

/-- Result of one iteration of the `BertDataset.worker` read loop: either
continue with the updated position, open document, documents buffer and
dumped output, or break out of the loop with the final output. -/
inductive WorkerNext
  | cont : Nat → List (List Nat) → List (List (List Nat)) →
      List (List (List (List Nat))) → WorkerNext
  | halt : List (List (List (List Nat))) → WorkerNext

/-- Embedding of one iteration of the read loop of `BertDataset.worker`
(data.py lines 101-130).  The `finally: pos += 1` clause runs on every
attempt, so `pos` advances even when `readline` raised and the `except`
branch continues the loop.  A blank line closes the open document and, when
the documents buffer reaches `bufSize`, dumps it (the dump is recorded as
the raw buffer; the real code pickles `build_instances(buffer)`).  On a
non-blank line the sentence is appended when non-empty and the loop breaks
once `pos >= end - 1`, dumping the pending buffer. -/
def bertWorkerStep (att : Nat → LineRead) (bufSize endPos : Nat) (pos : Nat)
    (document : List (List Nat)) (buf : List (List (List Nat)))
    (out : List (List (List (List Nat)))) : WorkerNext :=
  let pos1 := pos + 1
  match att pos with
  | .err => .cont pos1 document buf out
  | .blank =>
    let buf1 := if 1 ≤ document.length then buf ++ [document] else buf
    if buf1.length = bufSize then .cont pos1 [] [] (out ++ [buf1])
    else .cont pos1 [] buf1 out
  | .sent s =>
    let doc1 := if 0 < s.length then document ++ [s] else document
    if endPos - 1 ≤ pos1 then
      .halt (if 0 < buf.length then out ++ [buf] else out)
    else .cont pos1 doc1 buf out

/-- The `BertDataset.worker` read loop iterated with fuel; `none` when the
loop has not broken within `fuel` iterations. -/
def bertWorkerRun (att : Nat → LineRead) (bufSize endPos : Nat) :
    Nat → Nat → List (List Nat) → List (List (List Nat)) →
    List (List (List (List Nat))) → Option (List (List (List (List Nat))))
  | 0, _, _, _, _ => none
  | fuel + 1, pos, document, buf, out =>
    match bertWorkerStep att bufSize endPos pos document buf out with
    | .halt o => some o
    | .cont p d b o => bertWorkerRun att bufSize endPos fuel p d b o

/-- The redraw relation, written from the words of the spec: the
replacement id is redrawn from `randint(1, vocab_size-1)` until it is none
of CLS/SEP/MASK; `v` is the first acceptable draw starting at int-cursor
`ii` and `ii2` the cursor after it. -/
def RetryRel (V : Nat) (ri : Nat → Nat) (ii v ii2 : Nat) : Prop :=
  ∃ k, (∀ m, m < k → structuralDraw (randintM ri (ii + m) 1 (V - 1))) ∧
    ¬structuralDraw (randintM ri (ii + k) 1 (V - 1)) ∧
    v = randintM ri (ii + k) 1 (V - 1) ∧ ii2 = ii + k + 1

/-- The masking policy, written from the words of the spec (section 4.5):
relates an input token list with float/int cursors to the output token and
mask-target lists and final cursors.  A CLS/SEP position is left unmodified
with mask-target PAD; otherwise a float `prob` is drawn: `prob < 0.15`
makes the position a candidate, rescaled into the bands below 0.8 (MASK),
[0.8, 0.9) (random replacement, redrawn until not CLS/SEP/MASK) and
[0.9, 1.0) (kept), mask-target the original token; a non-candidate keeps
its token with mask-target PAD. -/
inductive MaskSpec (V : Nat) (fl : Nat → ℚ) (ri : Nat → Nat) :
    List Nat → Nat → Nat → List Nat → List Nat → Nat → Nat → Prop
  | nil (fi ii : Nat) : MaskSpec V fl ri [] fi ii [] [] fi ii
  | structural (t : Nat) (rest : List Nat) (fi ii : Nat) (s tg : List Nat)
      (fi2 ii2 : Nat) (hs : t = CLS_ID ∨ t = SEP_ID)
      (h : MaskSpec V fl ri rest fi ii s tg fi2 ii2) :
      MaskSpec V fl ri (t :: rest) fi ii (t :: s) (PAD_ID :: tg) fi2 ii2
  | noCandidate (t : Nat) (rest : List Nat) (fi ii : Nat) (s tg : List Nat)
      (fi2 ii2 : Nat) (hs : ¬(t = CLS_ID ∨ t = SEP_ID))
      (hp : ¬(fl fi < (15 : ℚ)/100))
      (h : MaskSpec V fl ri rest (fi + 1) ii s tg fi2 ii2) :
      MaskSpec V fl ri (t :: rest) fi ii (t :: s) (PAD_ID :: tg) fi2 ii2
  | maskBand (t : Nat) (rest : List Nat) (fi ii : Nat) (s tg : List Nat)
      (fi2 ii2 : Nat) (hs : ¬(t = CLS_ID ∨ t = SEP_ID))
      (hp : fl fi < (15 : ℚ)/100)
      (hb : fl fi / ((15 : ℚ)/100) < (8 : ℚ)/10)
      (h : MaskSpec V fl ri rest (fi + 1) ii s tg fi2 ii2) :
      MaskSpec V fl ri (t :: rest) fi ii (MASK_ID :: s) (t :: tg) fi2 ii2
  | randBand (t : Nat) (rest : List Nat) (fi ii : Nat) (s tg : List Nat)
      (fi2 ii2 : Nat) (v iiv : Nat) (hs : ¬(t = CLS_ID ∨ t = SEP_ID))
      (hp : fl fi < (15 : ℚ)/100)
      (hb1 : (8 : ℚ)/10 ≤ fl fi / ((15 : ℚ)/100))
      (hb2 : fl fi / ((15 : ℚ)/100) < (9 : ℚ)/10)
      (hr : RetryRel V ri ii v iiv)
      (h : MaskSpec V fl ri rest (fi + 1) iiv s tg fi2 ii2) :
      MaskSpec V fl ri (t :: rest) fi ii (v :: s) (t :: tg) fi2 ii2
  | keepBand (t : Nat) (rest : List Nat) (fi ii : Nat) (s tg : List Nat)
      (fi2 ii2 : Nat) (hs : ¬(t = CLS_ID ∨ t = SEP_ID))
      (hp : fl fi < (15 : ℚ)/100)
      (hb1 : (9 : ℚ)/10 ≤ fl fi / ((15 : ℚ)/100))
      (hb2 : fl fi / ((15 : ℚ)/100) < 1)
      (h : MaskSpec V fl ri rest (fi + 1) ii s tg fi2 ii2) :
      MaskSpec V fl ri (t :: rest) fi ii (t :: s) (t :: tg) fi2 ii2

theorem padWhile3_spec (n : Nat) :
    ∀ (fuel : Nat) (s t g s2 t2 g2 : List Nat),
      padWhile3 n fuel (s, t, g) = some (s2, t2, g2) →
      s.length ≤ n ∧ s2.length = n ∧
      t2.length = t.length + (n - s.length) ∧
      g2.length = g.length + (n - s.length) := by
  intro fuel
  induction fuel with
  | zero => intro s t g s2 t2 g2 h; simp [padWhile3] at h
  | succ m ih =>
    intro s t g s2 t2 g2 h
    rw [padWhile3] at h
    by_cases hl : s.length = n
    · simp [hl] at h
      obtain ⟨h1, h2, h3⟩ := h
      subst h1; subst h2; subst h3
      simp [hl]
    · simp [hl] at h
      obtain ⟨hle, h2, h3, h4⟩ := ih _ _ _ _ _ _ h
      simp at hle h3 h4
      refine ⟨by omega, h2, by omega, by omega⟩

theorem padWhile3_total (n : Nat) :
    ∀ (fuel : Nat) (s t g : List Nat), s.length ≤ n → n - s.length < fuel →
      ∃ o, padWhile3 n fuel (s, t, g) = some o := by
  intro fuel
  induction fuel with
  | zero => intro s t g hle hf; omega
  | succ m ih =>
    intro s t g hle hf
    rw [padWhile3]
    by_cases hl : s.length = n
    · simp [hl]
    · simp only [hl, if_false]
      apply ih
      · simp; omega
      · simp; omega

theorem pad3_some_lengths (n : Nat) (s t g s2 t2 g2 : List Nat)
    (h : pad3 (s, t, g) n = some (s2, t2, g2))
    (ht : t.length = s.length) (hg : g.length = s.length) :
    s2.length = n ∧ t2.length = n ∧ g2.length = n := by
  obtain ⟨hle, h2, h3, h4⟩ := padWhile3_spec n _ _ _ _ _ _ _ h
  refine ⟨h2, by omega, by omega⟩

theorem pad3_total (n : Nat) (s t g : List Nat) (hle : s.length ≤ n) :
    ∃ o, pad3 (s, t, g) n = some o := by
  exact padWhile3_total n (n + 1) s t g hle (by omega)

theorem padWhile2_spec (n : Nat) :
    ∀ (fuel : Nat) (s g s2 g2 : List Nat),
      padWhile2 n fuel (s, g) = some (s2, g2) →
      s.length ≤ n ∧ s2.length = n ∧ g2.length = g.length + (n - s.length) := by
  intro fuel
  induction fuel with
  | zero => intro s g s2 g2 h; simp [padWhile2] at h
  | succ m ih =>
    intro s g s2 g2 h
    rw [padWhile2] at h
    by_cases hl : s.length = n
    · simp [hl] at h
      obtain ⟨h1, h2⟩ := h
      subst h1; subst h2
      simp [hl]
    · simp [hl] at h
      obtain ⟨hle, h2, h3⟩ := ih _ _ _ _ h
      simp at hle h3
      refine ⟨by omega, h2, by omega⟩

theorem padWhile2_total (n : Nat) :
    ∀ (fuel : Nat) (s g : List Nat), s.length ≤ n → n - s.length < fuel →
      ∃ o, padWhile2 n fuel (s, g) = some o := by
  intro fuel
  induction fuel with
  | zero => intro s g hle hf; omega
  | succ m ih =>
    intro s g hle hf
    rw [padWhile2]
    by_cases hl : s.length = n
    · simp [hl]
    · simp only [hl, if_false]
      apply ih
      · simp; omega
      · simp; omega

theorem pad2_some_lengths (n : Nat) (s g s2 g2 : List Nat)
    (h : pad2 (s, g) n = some (s2, g2)) (hg : g.length = s.length) :
    s2.length = n ∧ g2.length = n := by
  obtain ⟨hle, h2, h3⟩ := padWhile2_spec n _ _ _ _ _ h
  refine ⟨h2, by omega⟩

theorem pad2_total (n : Nat) (s g : List Nat) (hle : s.length ≤ n) :
    ∃ o, pad2 (s, g) n = some o := by
  exact padWhile2_total n (n + 1) s g hle (by omega)

theorem padWhile1_spec (n : Nat) :
    ∀ (fuel : Nat) (s s2 : List Nat), padWhile1 n fuel s = some s2 →
      s.length ≤ n ∧ s2.length = n := by
  intro fuel
  induction fuel with
  | zero => intro s s2 h; simp [padWhile1] at h
  | succ m ih =>
    intro s s2 h
    rw [padWhile1] at h
    by_cases hl : s.length = n
    · simp [hl] at h
      subst h; simp [hl]
    · simp [hl] at h
      obtain ⟨hle, h2⟩ := ih _ _ h
      simp at hle
      exact ⟨by omega, h2⟩

theorem padWhile1_total (n : Nat) :
    ∀ (fuel : Nat) (s : List Nat), s.length ≤ n → n - s.length < fuel →
      ∃ o, padWhile1 n fuel s = some o := by
  intro fuel
  induction fuel with
  | zero => intro s hle hf; omega
  | succ m ih =>
    intro s hle hf
    rw [padWhile1]
    by_cases hl : s.length = n
    · simp [hl]
    · simp only [hl, if_false]
      apply ih
      · simp; omega
      · simp; omega

theorem pad1_some_lengths (n : Nat) (s s2 : List Nat)
    (h : pad1 s n = some s2) : s2.length = n :=
  (padWhile1_spec n _ _ _ h).2

theorem pad1_total (n : Nat) (s : List Nat) (hle : s.length ≤ n) :
    ∃ o, pad1 s n = some o :=
  padWhile1_total n (n + 1) s hle (by omega)

theorem retryDraw_bounds (V : Nat) (ri : Nat → Nat) :
    ∀ (fuel ii v ii2 : Nat), retryDraw V ri ii fuel = some (v, ii2) →
      1 ≤ v ∧ (2 ≤ V → v ≤ V - 1) ∧ ¬structuralDraw v := by
  intro fuel
  induction fuel with
  | zero => intro ii v ii2 h; simp [retryDraw] at h
  | succ m ih =>
    intro ii v ii2 h
    rw [retryDraw] at h
    by_cases hs : structuralDraw (randintM ri ii 1 (V - 1))
    · simp [hs] at h
      exact ih _ _ _ h
    · simp [hs] at h
      obtain ⟨hv, _⟩ := h
      subst hv
      refine ⟨by simp [randintM], ?_, hs⟩
      intro hV
      have hmod : ri ii % (V - 1) < V - 1 := Nat.mod_lt _ (by omega)
      simp [randintM, Nat.add_sub_cancel]
      omega

theorem retryDraw_term (V : Nat) (ri : Nat → Nat) :
    ∀ (k ii : Nat), ¬structuralDraw (randintM ri (ii + k) 1 (V - 1)) →
      ∃ v ii2, retryDraw V ri ii (k + 1) = some (v, ii2) := by
  intro k
  induction k with
  | zero =>
    intro ii hgood
    rw [retryDraw]
    simp only [Nat.add_zero] at hgood
    simp [hgood]
  | succ m ih =>
    intro ii hgood
    rw [retryDraw]
    by_cases hs : structuralDraw (randintM ri ii 1 (V - 1))
    · simp only [hs, if_true]
      apply ih
      have : ii + 1 + m = ii + (m + 1) := by omega
      rw [this]
      exact hgood
    · simp [hs]

theorem retryDraw_rel (V : Nat) (ri : Nat → Nat) :
    ∀ (fuel ii v ii2 : Nat), retryDraw V ri ii fuel = some (v, ii2) →
      RetryRel V ri ii v ii2 := by
  intro fuel
  induction fuel with
  | zero => intro ii v ii2 h; simp [retryDraw] at h
  | succ m ih =>
    intro ii v ii2 h
    rw [retryDraw] at h
    by_cases hs : structuralDraw (randintM ri ii 1 (V - 1))
    · simp [hs] at h
      obtain ⟨k, hbad, hgood, hv, hii⟩ := ih _ _ _ h
      refine ⟨k + 1, ?_, ?_, ?_, by omega⟩
      · intro m hm
        match m, hm with
        | 0, _ => simpa using hs
        | m + 1, hm =>
          have : ii + (m + 1) = ii + 1 + m := by omega
          rw [this]
          exact hbad m (by omega)
      · have : ii + (k + 1) = ii + 1 + k := by omega
        rw [this]; exact hgood
      · have : ii + (k + 1) = ii + 1 + k := by omega
        rw [this]; exact hv
    · simp [hs] at h
      obtain ⟨hv, hii⟩ := h
      exact ⟨0, by omega, by simpa using hs, by simp [hv], by omega⟩

theorem mask_seq_lengths (V : Nat) (fl : Nat → ℚ) (ri : Nat → Nat)
    (fuel : Nat) :
    ∀ (src : List Nat) (fi ii : Nat) (s t : List Nat) (fi2 ii2 : Nat),
      mask_seq V fl ri fuel src fi ii = some (s, t, fi2, ii2) →
      s.length = src.length ∧ t.length = src.length := by
  intro src
  induction src with
  | nil =>
    intro fi ii s t fi2 ii2 h
    simp [mask_seq] at h
    obtain ⟨h1, h2, _⟩ := h
    simp [h1, h2]
  | cons a rest ih =>
    intro fi ii s t fi2 ii2 h
    rw [mask_seq] at h
    by_cases hcs : a = CLS_ID ∨ a = SEP_ID
    · simp only [hcs, if_true, Option.map_eq_some'] at h
      obtain ⟨⟨s1, t1, j1, j2⟩, hrec, heq⟩ := h
      simp only [Prod.mk.injEq] at heq
      obtain ⟨hs, ht, _⟩ := heq
      obtain ⟨l1, l2⟩ := ih _ _ _ _ _ _ hrec
      subst hs; subst ht; simp [l1, l2]
    · simp only [hcs, if_false] at h
      by_cases hp : fl fi < (15 : ℚ)/100
      · simp only [hp, if_true] at h
        by_cases hb : fl fi / ((15 : ℚ)/100) < (8 : ℚ)/10
        · simp only [hb, if_true, Option.map_eq_some'] at h
          obtain ⟨⟨s1, t1, j1, j2⟩, hrec, heq⟩ := h
          simp only [Prod.mk.injEq] at heq
          obtain ⟨hs, ht, _⟩ := heq
          obtain ⟨l1, l2⟩ := ih _ _ _ _ _ _ hrec
          subst hs; subst ht; simp [l1, l2]
        · simp only [hb, if_false] at h
          by_cases hb2 : fl fi / ((15 : ℚ)/100) < (9 : ℚ)/10
          · simp only [hb2, if_true] at h
            match hr : retryDraw V ri ii fuel with
            | none => rw [hr] at h; simp at h
            | some (v, iiv) =>
              rw [hr] at h
              simp only [Option.map_eq_some'] at h
              obtain ⟨⟨s1, t1, j1, j2⟩, hrec, heq⟩ := h
              simp only [Prod.mk.injEq] at heq
              obtain ⟨hs, ht, _⟩ := heq
              obtain ⟨l1, l2⟩ := ih _ _ _ _ _ _ hrec
              subst hs; subst ht; simp [l1, l2]
          · simp only [hb2, if_false, Option.map_eq_some'] at h
            obtain ⟨⟨s1, t1, j1, j2⟩, hrec, heq⟩ := h
            simp only [Prod.mk.injEq] at heq
            obtain ⟨hs, ht, _⟩ := heq
            obtain ⟨l1, l2⟩ := ih _ _ _ _ _ _ hrec
            subst hs; subst ht; simp [l1, l2]
      · simp only [hp, if_false, Option.map_eq_some'] at h
        obtain ⟨⟨s1, t1, j1, j2⟩, hrec, heq⟩ := h
        simp only [Prod.mk.injEq] at heq
        obtain ⟨hs, ht, _⟩ := heq
        obtain ⟨l1, l2⟩ := ih _ _ _ _ _ _ hrec
        subst hs; subst ht; simp [l1, l2]

theorem mask_seq_spec (V : Nat) (fl : Nat → ℚ) (ri : Nat → Nat)
    (fuel : Nat) :
    ∀ (src : List Nat) (fi ii : Nat) (s t : List Nat) (fi2 ii2 : Nat),
      mask_seq V fl ri fuel src fi ii = some (s, t, fi2, ii2) →
      MaskSpec V fl ri src fi ii s t fi2 ii2 := by
  intro src
  induction src with
  | nil =>
    intro fi ii s t fi2 ii2 h
    simp [mask_seq] at h
    obtain ⟨h1, h2, h3, h4⟩ := h
    subst h1; subst h2; subst h3; subst h4
    exact MaskSpec.nil fi ii
  | cons a rest ih =>
    intro fi ii s t fi2 ii2 h
    rw [mask_seq] at h
    by_cases hcs : a = CLS_ID ∨ a = SEP_ID
    · simp only [hcs, if_true, Option.map_eq_some'] at h
      obtain ⟨⟨s1, t1, j1, j2⟩, hrec, heq⟩ := h
      simp only [Prod.mk.injEq] at heq
      obtain ⟨hs, ht, hj1, hj2⟩ := heq
      subst hs; subst ht; subst hj1; subst hj2
      exact MaskSpec.structural a rest fi ii s1 t1 _ _ hcs
        (ih _ _ _ _ _ _ hrec)
    · simp only [hcs, if_false] at h
      by_cases hp : fl fi < (15 : ℚ)/100
      · simp only [hp, if_true] at h
        by_cases hb : fl fi / ((15 : ℚ)/100) < (8 : ℚ)/10
        · simp only [hb, if_true, Option.map_eq_some'] at h
          obtain ⟨⟨s1, t1, j1, j2⟩, hrec, heq⟩ := h
          simp only [Prod.mk.injEq] at heq
          obtain ⟨hs, ht, hj1, hj2⟩ := heq
          subst hs; subst ht; subst hj1; subst hj2
          exact MaskSpec.maskBand a rest fi ii s1 t1 _ _ hcs hp hb
            (ih _ _ _ _ _ _ hrec)
        · simp only [hb, if_false] at h
          by_cases hb2 : fl fi / ((15 : ℚ)/100) < (9 : ℚ)/10
          · simp only [hb2, if_true] at h
            match hr : retryDraw V ri ii fuel with
            | none => rw [hr] at h; simp at h
            | some (v, iiv) =>
              rw [hr] at h
              simp only [Option.map_eq_some'] at h
              obtain ⟨⟨s1, t1, j1, j2⟩, hrec, heq⟩ := h
              simp only [Prod.mk.injEq] at heq
              obtain ⟨hs, ht, hj1, hj2⟩ := heq
              subst hs; subst ht; subst hj1; subst hj2
              exact MaskSpec.randBand a rest fi ii s1 t1 _ _ v iiv hcs hp
                (le_of_not_lt hb) hb2 (retryDraw_rel V ri fuel ii v iiv hr)
                (ih _ _ _ _ _ _ hrec)
          · simp only [hb2, if_false, Option.map_eq_some'] at h
            obtain ⟨⟨s1, t1, j1, j2⟩, hrec, heq⟩ := h
            simp only [Prod.mk.injEq] at heq
            obtain ⟨hs, ht, hj1, hj2⟩ := heq
            subst hs; subst ht; subst hj1; subst hj2
            have hlt1 : fl fi / ((15 : ℚ)/100) < 1 := by
              rw [div_lt_one (by norm_num)]
              calc fl fi < (15 : ℚ)/100 := hp
              _ ≤ (15 : ℚ)/100 := le_refl _
            exact MaskSpec.keepBand a rest fi ii s1 t1 _ _ hcs hp
              (le_of_not_lt hb2) hlt1 (ih _ _ _ _ _ _ hrec)
      · simp only [hp, if_false, Option.map_eq_some'] at h
        obtain ⟨⟨s1, t1, j1, j2⟩, hrec, heq⟩ := h
        simp only [Prod.mk.injEq] at heq
        obtain ⟨hs, ht, hj1, hj2⟩ := heq
        subst hs; subst ht; subst hj1; subst hj2
        exact MaskSpec.noCandidate a rest fi ii s1 t1 _ _ hcs hp
          (ih _ _ _ _ _ _ hrec)

theorem truncate_post (fl : Nat → ℚ) (a b : List Nat) (maxNT : Int) (fi : Nat) :
    ∀ a2 b2 fi2, truncate_seq_pair fl a b maxNT fi = some (a2, b2, fi2) →
      ((a2.length : Int) + (b2.length : Int) ≤ maxNT) ∧
      a2 <:+: a ∧ b2 <:+: b := by
  induction a, b, maxNT, fi using truncate_seq_pair.induct fl with
  | case1 a b maxNT fi hle =>
    intro a2 b2 fi2 h
    rw [truncate_seq_pair, if_pos hle] at h
    simp only [Option.some.injEq, Prod.mk.injEq] at h
    obtain ⟨h1, h2, _⟩ := h
    subst h1; subst h2
    exact ⟨hle, List.infix_refl _, List.infix_refl _⟩
  | case2 b maxNT fi hle hlt => simp at hlt
  | case3 a b maxNT fi hle hlt hne hf ih =>
    intro a2 b2 fi2 h
    rw [truncate_seq_pair, if_neg hle, if_pos hlt, if_neg hne, if_pos hf] at h
    obtain ⟨h1, h2, h3⟩ := ih _ _ _ h
    exact ⟨h1, h2.trans (List.tail_suffix a).isInfix, h3⟩
  | case4 a b maxNT fi hle hlt hne hf ih =>
    intro a2 b2 fi2 h
    rw [truncate_seq_pair, if_neg hle, if_pos hlt, if_neg hne, if_neg hf] at h
    obtain ⟨h1, h2, h3⟩ := ih _ _ _ h
    exact ⟨h1, h2.trans (List.dropLast_prefix a).isInfix, h3⟩
  | case5 a maxNT fi hle hlt =>
    intro a2 b2 fi2 h
    rw [truncate_seq_pair, if_neg hle, if_neg hlt] at h
    simp at h
  | case6 a b maxNT fi hle hlt hne hf ih =>
    intro a2 b2 fi2 h
    rw [truncate_seq_pair, if_neg hle, if_neg hlt, if_neg hne, if_pos hf] at h
    obtain ⟨h1, h2, h3⟩ := ih _ _ _ h
    exact ⟨h1, h2, h3.trans (List.tail_suffix b).isInfix⟩
  | case7 a b maxNT fi hle hlt hne hf ih =>
    intro a2 b2 fi2 h
    rw [truncate_seq_pair, if_neg hle, if_neg hlt, if_neg hne, if_neg hf] at h
    obtain ⟨h1, h2, h3⟩ := ih _ _ _ h
    exact ⟨h1, h2, h3.trans (List.dropLast_prefix b).isInfix⟩

theorem truncate_total (fl : Nat → ℚ) (a b : List Nat) (maxNT : Int)
    (fi : Nat) : 0 ≤ maxNT →
    ∃ a2 b2 fi2, truncate_seq_pair fl a b maxNT fi = some (a2, b2, fi2) := by
  induction a, b, maxNT, fi using truncate_seq_pair.induct fl with
  | case1 a b maxNT fi hle =>
    intro _
    exact ⟨a, b, fi, by rw [truncate_seq_pair, if_pos hle]⟩
  | case2 b maxNT fi hle hlt => simp at hlt
  | case3 a b maxNT fi hle hlt hne hf ih =>
    intro h0
    obtain ⟨a2, b2, fi2, hrec⟩ := ih h0
    refine ⟨a2, b2, fi2, ?_⟩
    rw [truncate_seq_pair, if_neg hle, if_pos hlt, if_neg hne, if_pos hf]
    exact hrec
  | case4 a b maxNT fi hle hlt hne hf ih =>
    intro h0
    obtain ⟨a2, b2, fi2, hrec⟩ := ih h0
    refine ⟨a2, b2, fi2, ?_⟩
    rw [truncate_seq_pair, if_neg hle, if_pos hlt, if_neg hne, if_neg hf]
    exact hrec
  | case5 a maxNT fi hle hlt =>
    intro h0
    exfalso
    simp only [List.length_nil, not_lt, Nat.le_zero] at hlt
    rw [List.length_eq_zero.mpr rfl] at hle
    simp [hlt] at hle
    omega
  | case6 a b maxNT fi hle hlt hne hf ih =>
    intro h0
    obtain ⟨a2, b2, fi2, hrec⟩ := ih h0
    refine ⟨a2, b2, fi2, ?_⟩
    rw [truncate_seq_pair, if_neg hle, if_neg hlt, if_neg hne, if_pos hf]
    exact hrec
  | case7 a b maxNT fi hle hlt hne hf ih =>
    intro h0
    obtain ⟨a2, b2, fi2, hrec⟩ := ih h0
    refine ⟨a2, b2, fi2, ?_⟩
    rw [truncate_seq_pair, if_neg hle, if_neg hlt, if_neg hne, if_neg hf]
    exact hrec

theorem truncate_nonempty (fl : Nat → ℚ) (a b : List Nat) (maxNT : Int)
    (fi : Nat) : 2 ≤ maxNT → a ≠ [] → b ≠ [] →
    ∀ a2 b2 fi2, truncate_seq_pair fl a b maxNT fi = some (a2, b2, fi2) →
      a2 ≠ [] ∧ b2 ≠ [] := by
  induction a, b, maxNT, fi using truncate_seq_pair.induct fl with
  | case1 a b maxNT fi hle =>
    intro _ ha hb a2 b2 fi2 h
    rw [truncate_seq_pair, if_pos hle] at h
    simp only [Option.some.injEq, Prod.mk.injEq] at h
    obtain ⟨h1, h2, _⟩ := h
    subst h1; subst h2
    exact ⟨ha, hb⟩
  | case2 b maxNT fi hle hlt => simp at hlt
  | case3 a b maxNT fi hle hlt hne hf ih =>
    intro h2m ha hb a2 b2 fi2 h
    rw [truncate_seq_pair, if_neg hle, if_pos hlt, if_neg hne, if_pos hf] at h
    have hbl : 1 ≤ b.length := List.length_pos.mpr hb
    have hta : a.tail ≠ [] := by
      apply List.ne_nil_of_length_pos
      simp only [List.length_tail]
      omega
    exact ih h2m hta hb _ _ _ h
  | case4 a b maxNT fi hle hlt hne hf ih =>
    intro h2m ha hb a2 b2 fi2 h
    rw [truncate_seq_pair, if_neg hle, if_pos hlt, if_neg hne, if_neg hf] at h
    have hbl : 1 ≤ b.length := List.length_pos.mpr hb
    have hta : a.dropLast ≠ [] := by
      apply List.ne_nil_of_length_pos
      simp only [List.length_dropLast]
      omega
    exact ih h2m hta hb _ _ _ h
  | case5 a maxNT fi hle hlt =>
    intro _ _ hb
    exact absurd rfl hb
  | case6 a b maxNT fi hle hlt hne hf ih =>
    intro h2m ha hb a2 b2 fi2 h
    rw [truncate_seq_pair, if_neg hle, if_neg hlt, if_neg hne, if_pos hf] at h
    have hal : 1 ≤ a.length := List.length_pos.mpr ha
    have hsum : (2 : Int) < (a.length : Int) + (b.length : Int) :=
      lt_of_le_of_lt h2m (lt_of_not_le hle)
    have htb : b.tail ≠ [] := by
      apply List.ne_nil_of_length_pos
      simp only [not_lt] at hlt
      simp only [List.length_tail]
      omega
    exact ih h2m ha htb _ _ _ h
  | case7 a b maxNT fi hle hlt hne hf ih =>
    intro h2m ha hb a2 b2 fi2 h
    rw [truncate_seq_pair, if_neg hle, if_neg hlt, if_neg hne, if_neg hf] at h
    have hal : 1 ≤ a.length := List.length_pos.mpr ha
    have hsum : (2 : Int) < (a.length : Int) + (b.length : Int) :=
      lt_of_le_of_lt h2m (lt_of_not_le hle)
    have htb : b.dropLast ≠ [] := by
      apply List.ne_nil_of_length_pos
      simp only [not_lt] at hlt
      simp only [List.length_dropLast]
      omega
    exact ih h2m ha htb _ _ _ h

theorem truncate_of_le (fl : Nat → ℚ) (a b : List Nat) (maxNT : Int)
    (fi : Nat) (hle : (a.length : Int) + (b.length : Int) ≤ maxNT) :
    truncate_seq_pair fl a b maxNT fi = some (a, b, fi) := by
  rw [truncate_seq_pair, if_pos hle]

theorem truncate_tie (fl : Nat → ℚ) (a b : List Nat) (maxNT : Int) (fi : Nat)
    (heq : a.length = b.length) (h0 : 0 ≤ maxNT)
    (hgt : maxNT < (a.length : Int) + (b.length : Int)) :
    truncate_seq_pair fl a b maxNT fi =
      if fl fi < (1 : ℚ)/2 then truncate_seq_pair fl a b.tail maxNT (fi + 1)
      else truncate_seq_pair fl a b.dropLast maxNT (fi + 1) := by
  have hbl : 1 ≤ b.length := by omega
  have hb : b ≠ [] := List.ne_nil_of_length_pos (by omega)
  rw [truncate_seq_pair, if_neg (not_le.mpr hgt),
    if_neg (by omega : ¬b.length < a.length), if_neg hb]

/-- C2: for every input token list and vocabulary size, `mask_seq` returns
(when its redraw fuel suffices, the only way a Python run terminates) a
target list and an output list of the same length as the input, and the
pair satisfies the masking policy of the spec: CLS/SEP positions are left
unmodified with mask-target PAD; any other position is a masking candidate
iff its drawn `prob < 0.15`, and after rescaling the token is replaced by
MASK when `prob/0.15 < 0.8`, replaced by a redrawn random id when
`prob/0.15` is in [0.8, 0.9), and kept when it is in [0.9, 1.0), with
mask-target the original token in all three candidate cases; non-candidates
keep their token with mask-target PAD. -/
theorem c2_mask_seq_correct (V : Nat) (fl : Nat → ℚ) (ri : Nat → Nat)
    (fuel : Nat) (src : List Nat) (fi ii : Nat) (s t : List Nat)
    (fi2 ii2 : Nat)
    (h : mask_seq V fl ri fuel src fi ii = some (s, t, fi2, ii2)) :
    s.length = src.length ∧ t.length = src.length ∧
    MaskSpec V fl ri src fi ii s t fi2 ii2 := by
  obtain ⟨h1, h2⟩ := mask_seq_lengths V fl ri fuel src fi ii s t fi2 ii2 h
  exact ⟨h1, h2, mask_seq_spec V fl ri fuel src fi ii s t fi2 ii2 h⟩

/-- Witness for C2 at a concrete input: a two-token sequence starting with
CLS and a non-candidate draw. -/
theorem c2_mask_seq_witness :
    ∃ s t fi2 ii2,
      mask_seq 10 (fun _ => (1 : ℚ)/2) (fun _ => 0) 1 [CLS_ID, 7] 0 0 =
        some (s, t, fi2, ii2) ∧
      s.length = 2 ∧ t.length = 2 ∧
      MaskSpec 10 (fun _ => (1 : ℚ)/2) (fun _ => 0) [CLS_ID, 7] 0 0 s t
        fi2 ii2 := by
  have hmask : mask_seq 10 (fun _ => (1 : ℚ)/2) (fun _ => 0) 1 [CLS_ID, 7] 0 0
      = some ([CLS_ID, 7], [PAD_ID, PAD_ID], 1, 0) := by
    simp [mask_seq, CLS_ID, SEP_ID, PAD_ID]
    norm_num
    exact ⟨[7], [0], 1, 0, ⟨rfl, rfl, rfl, rfl⟩, rfl, rfl, rfl, rfl⟩
  obtain ⟨h1, h2, h3⟩ :=
    c2_mask_seq_correct 10 (fun _ => (1 : ℚ)/2) (fun _ => 0) 1 [CLS_ID, 7]
      0 0 _ _ 1 0 hmask
  exact ⟨_, _, _, _, hmask, h1, h2, h3⟩

/-- C3: for all token lists and every `max_num_tokens ≥ 0`,
`truncate_seq_pair` terminates with combined length at most the bound; the
result segments are contiguous infixes of the inputs (each iteration only
removes one token from the front or back of the longer segment, so nothing
is added or reordered); inputs already within the bound are returned
unchanged; and on a tie of lengths segment A is treated as not longer, so B
is trimmed (front on a draw below 0.5, back otherwise). -/
theorem c3_truncate_seq_pair_correct (fl : Nat → ℚ) (a b : List Nat)
    (maxNT : Int) (fi : Nat) (h0 : 0 ≤ maxNT) :
    (∃ a2 b2 fi2, truncate_seq_pair fl a b maxNT fi = some (a2, b2, fi2) ∧
      (a2.length : Int) + (b2.length : Int) ≤ maxNT ∧
      a2 <:+: a ∧ b2 <:+: b) ∧
    ((a.length : Int) + (b.length : Int) ≤ maxNT →
      truncate_seq_pair fl a b maxNT fi = some (a, b, fi)) ∧
    (a.length = b.length → maxNT < (a.length : Int) + (b.length : Int) →
      truncate_seq_pair fl a b maxNT fi =
        if fl fi < (1 : ℚ)/2 then truncate_seq_pair fl a b.tail maxNT (fi + 1)
        else truncate_seq_pair fl a b.dropLast maxNT (fi + 1)) := by
  refine ⟨?_, truncate_of_le fl a b maxNT fi,
    fun hEq hgt => truncate_tie fl a b maxNT fi hEq h0 hgt⟩
  obtain ⟨a2, b2, fi2, hsome⟩ := truncate_total fl a b maxNT fi h0
  obtain ⟨h1, h2, h3⟩ := truncate_post fl a b maxNT fi a2 b2 fi2 hsome
  exact ⟨a2, b2, fi2, hsome, h1, h2, h3⟩

/-- Witness for C3 at a concrete input: trimming [1,2,3] and [4] down to a
combined length of 2. -/
theorem c3_truncate_seq_pair_witness :
    ∃ a2 b2 fi2,
      truncate_seq_pair (fun _ => 0) [1, 2, 3] [4] 2 0 = some (a2, b2, fi2) ∧
      (a2.length : Int) + (b2.length : Int) ≤ 2 ∧
      a2 <:+: [1, 2, 3] ∧ b2 <:+: [4] :=
  (c3_truncate_seq_pair_correct (fun _ => 0) [1, 2, 3] [4] 2 0
    (by norm_num)).1

/-- C10: any value accepted by the redraw loop lies in [1, vocab_size-1],
is none of CLS/SEP/MASK and in particular is never the PAD id 0; the loop
terminates as soon as the draw stream produces one acceptable value (which
the uniform draw does with probability one exactly when such a value
exists); and a vocabulary of size at least 5 with the distinct reserved ids
does contain an acceptable value. -/
theorem c10_random_replacement (V : Nat) (ri : Nat → Nat) (ii : Nat) :
    (∀ fuel v ii2, retryDraw V ri ii fuel = some (v, ii2) →
      1 ≤ v ∧ (2 ≤ V → v ≤ V - 1) ∧ ¬structuralDraw v ∧ v ≠ PAD_ID) ∧
    ((∃ k, ¬structuralDraw (randintM ri (ii + k) 1 (V - 1))) →
      ∃ fuel v ii2, retryDraw V ri ii fuel = some (v, ii2)) ∧
    (5 ≤ V → ∃ w, 1 ≤ w ∧ w ≤ V - 1 ∧ ¬structuralDraw w) := by
  refine ⟨?_, ?_, ?_⟩
  · intro fuel v ii2 h
    obtain ⟨h1, h2, h3⟩ := retryDraw_bounds V ri fuel ii v ii2 h
    refine ⟨h1, h2, h3, ?_⟩
    simp [PAD_ID]
    omega
  · rintro ⟨k, hk⟩
    obtain ⟨v, ii2, hv⟩ := retryDraw_term V ri k ii hk
    exact ⟨k + 1, v, ii2, hv⟩
  · intro hV
    refine ⟨1, le_refl 1, by omega, ?_⟩
    simp [structuralDraw, CLS_ID, SEP_ID, MASK_ID]

/-- Witness for C10 at a concrete input: vocabulary size 10 and a stream
whose first draw is already acceptable. -/
theorem c10_random_replacement_witness :
    (1 ≤ 1 ∧ (2 ≤ 10 → 1 ≤ 10 - 1) ∧ ¬structuralDraw 1 ∧ 1 ≠ PAD_ID) ∧
    (∃ fuel v ii2, retryDraw 10 (fun _ => 0) 0 fuel = some (v, ii2)) := by
  constructor
  · exact (c10_random_replacement 10 (fun _ => 0) 0).1 1 1 1 (by decide)
  · exact (c10_random_replacement 10 (fun _ => 0) 0).2.1 ⟨0, by decide⟩

/-- C5: for every corpus size and worker count at least 1, the assigned
ranges `[i*S//W, (i+1)*S//W)` start at 0, have nondecreasing endpoints,
cover every point below `S` exactly once (no gaps, no overlaps) and the
last range ends exactly at `S`. -/
theorem c5_partition_correct (S W : Nat) (hW : 1 ≤ W) :
    partStart S W 0 = 0 ∧ partStart S W W = S ∧
    (∀ i j, i ≤ j → partStart S W i ≤ partStart S W j) ∧
    (∀ x, x < S → ∃ i, i < W ∧ partStart S W i ≤ x ∧
      x < partStart S W (i + 1)) ∧
    (∀ i j x, i < j → partStart S W i ≤ x → x < partStart S W (i + 1) →
      partStart S W j ≤ x → x < partStart S W (j + 1) → False) := by
  have hmono : ∀ i j, i ≤ j → partStart S W i ≤ partStart S W j := by
    intro i j hij
    exact Nat.div_le_div_right (Nat.mul_le_mul_right S hij)
  refine ⟨by simp [partStart], ?_, hmono, ?_, ?_⟩
  · simp only [partStart]
    exact Nat.mul_div_cancel_left S (by omega)
  · intro x hx
    have hSW : partStart S W W = S := by
      simp only [partStart]
      exact Nat.mul_div_cancel_left S (by omega)
    have cover : ∀ j, x < partStart S W j →
        ∃ i, i < j ∧ partStart S W i ≤ x ∧ x < partStart S W (i + 1) := by
      intro j
      induction j with
      | zero => intro h; simp [partStart] at h
      | succ k ih =>
        intro h
        by_cases hk : partStart S W k ≤ x
        · exact ⟨k, Nat.lt_succ_self k, hk, h⟩
        · obtain ⟨i, hi, h1, h2⟩ := ih (lt_of_not_le hk)
          exact ⟨i, Nat.lt_succ_of_lt hi, h1, h2⟩
    exact cover W (by rw [hSW]; exact hx)
  · intro i j x hij h1 h2 h3 h4
    have : partStart S W (i + 1) ≤ partStart S W j := hmono _ _ (by omega)
    omega

/-- Witness for C5 at a concrete input: 7 lines split over 3 workers. -/
theorem c5_partition_witness :
    partStart 7 3 3 = 7 ∧
    (∃ i, i < 3 ∧ partStart 7 3 i ≤ 5 ∧ 5 < partStart 7 3 (i + 1)) :=
  ⟨(c5_partition_correct 7 3 (by norm_num)).2.1,
    (c5_partition_correct 7 3 (by norm_num)).2.2.2.1 5 (by norm_num)⟩

theorem assembleSrc_length (a b : List Nat) :
    (assembleSrc a b).length = a.length + b.length + 3 := by
  simp [assembleSrc]
  omega

theorem assembleSeg_length (a b : List Nat) :
    (assembleSeg a b).length = a.length + b.length + 3 := by
  simp [assembleSeg]
  omega

theorem bertLoop_lengths (allDocs : List (List (List Nat))) (docIdx : Nat)
    (doc : List (List Nat)) (target maxNT : Int) (seqLen V : Nat)
    (fl : Nat → ℚ) (ri : Nat → Nat) (retryFuel : Nat) :
    ∀ (fuel i fi ii : Nat) (l : List (List Nat × List Nat × Nat × List Nat))
      (fi2 ii2 : Nat),
      bertLoop allDocs docIdx doc target maxNT seqLen V fl ri retryFuel
        fuel i fi ii = some (l, fi2, ii2) →
      ∀ ins ∈ l, ins.1.length = seqLen ∧ ins.2.1.length = seqLen ∧
        ins.2.2.2.length = seqLen := by
  intro fuel
  induction fuel with
  | zero => intro i fi ii l fi2 ii2 h; simp [bertLoop] at h
  | succ m ih =>
    intro i fi ii l fi2 ii2 h
    simp only [bertLoop] at h
    split at h
    · simp only [Option.some.injEq, Prod.mk.injEq] at h
      obtain ⟨h1, _⟩ := h
      subst h1
      intro ins hins
      simp at hins
    · split at h
      · simp at h
      · rename_i a2 b2 isr consumed fi2x ii2x hcp
        split at h
        · simp at h
        · rename_i srcM tgt fi3 ii3 hm
          split at h
          · simp at h
          · rename_i s t g hp
            split at h
            · simp at h
            · rename_i rest fi4 ii4 hrec
              simp only [Option.some.injEq, Prod.mk.injEq] at h
              obtain ⟨h1, _⟩ := h
              subst h1
              intro ins hins
              rcases List.mem_cons.mp hins with hins | hins
              · subst hins
                obtain ⟨hm1, hm2⟩ := mask_seq_lengths V fl ri retryFuel _ _ _
                  _ _ _ _ hm
                have hg : (assembleSeg a2 b2).length = srcM.length := by
                  rw [hm1, assembleSrc_length, assembleSeg_length]
                obtain ⟨p1, p2, p3⟩ := pad3_some_lengths seqLen _ _ _ _ _ _
                  hp (by rw [hm2, hm1]) hg
                exact ⟨p1, p2, p3⟩
              · exact ih _ _ _ _ _ _ hrec ins hins

theorem bertCreate_lengths (allDocs : List (List (List Nat))) (docIdx : Nat)
    (seqLen : Nat) (shortProb : ℚ) (V retryFuel : Nat) (fl : Nat → ℚ)
    (ri : Nat → Nat) (fi ii : Nat)
    (l : List (List Nat × List Nat × Nat × List Nat)) (fi2 ii2 : Nat)
    (h : bertCreateInsFromDoc allDocs docIdx seqLen shortProb V retryFuel
      fl ri fi ii = some (l, fi2, ii2)) :
    ∀ ins ∈ l, ins.1.length = seqLen ∧ ins.2.1.length = seqLen ∧
      ins.2.2.2.length = seqLen := by
  rw [bertCreateInsFromDoc] at h
  split at h
  · split at h
    · simp at h
    · exact bertLoop_lengths _ _ _ _ _ _ _ _ _ _ _ _ _ _ _ _ _ h
  · exact bertLoop_lengths _ _ _ _ _ _ _ _ _ _ _ _ _ _ _ _ _ h

theorem nspLoop_lengths (allDocs : List (List (List Nat))) (docIdx : Nat)
    (doc : List (List Nat)) (target maxNT : Int) (seqLen : Nat)
    (fl : Nat → ℚ) (ri : Nat → Nat) :
    ∀ (fuel i fi ii : Nat) (l : List (List Nat × Nat × List Nat))
      (fi2 ii2 : Nat),
      nspLoop allDocs docIdx doc target maxNT seqLen fl ri fuel i fi ii =
        some (l, fi2, ii2) →
      ∀ ins ∈ l, ins.1.length = seqLen ∧ ins.2.2.length = seqLen := by
  intro fuel
  induction fuel with
  | zero => intro i fi ii l fi2 ii2 h; simp [nspLoop] at h
  | succ m ih =>
    intro i fi ii l fi2 ii2 h
    simp only [nspLoop] at h
    split at h
    · simp only [Option.some.injEq, Prod.mk.injEq] at h
      obtain ⟨h1, _⟩ := h
      subst h1
      intro ins hins
      simp at hins
    · split at h
      · simp at h
      · rename_i a2 b2 isr consumed fi2x ii2x hcp
        split at h
        · split at h
          · simp at h
          · rename_i s g hp
            split at h
            · simp at h
            · rename_i rest fi3 ii3 hrec
              simp only [Option.some.injEq, Prod.mk.injEq] at h
              obtain ⟨h1, _⟩ := h
              subst h1
              intro ins hins
              rcases List.mem_cons.mp hins with hins | hins
              · subst hins
                have hg : (assembleSeg a2 b2).length =
                    (assembleSrc a2 b2).length := by
                  rw [assembleSrc_length, assembleSeg_length]
                obtain ⟨p1, p2⟩ := pad2_some_lengths seqLen _ _ _ _ hp hg
                exact ⟨p1, p2⟩
              · exact ih _ _ _ _ _ _ hrec ins hins
        · simp at h

theorem nspCreate_lengths (allDocs : List (List (List Nat))) (docIdx : Nat)
    (seqLen : Nat) (fl : Nat → ℚ) (ri : Nat → Nat) (fi ii : Nat)
    (l : List (List Nat × Nat × List Nat)) (fi2 ii2 : Nat)
    (h : nspCreateInsFromDoc allDocs docIdx seqLen fl ri fi ii =
      some (l, fi2, ii2)) :
    ∀ ins ∈ l, ins.1.length = seqLen ∧ ins.2.2.length = seqLen := by
  rw [nspCreateInsFromDoc] at h
  exact nspLoop_lengths _ _ _ _ _ _ _ _ _ _ _ _ _ _ _ h

theorem lmLineInstance_lengths (tokens : List Nat) (seqLen : Nat) :
    ∃ s t g, lmLineInstance tokens seqLen = some (s, t, g) ∧
      s.length = seqLen ∧ t.length = seqLen ∧ g.length = seqLen := by
  rw [lmLineInstance]
  have hsrc : tokens.dropLast.length = tokens.length - 1 :=
    List.length_dropLast tokens
  have htgt : (tokens.drop 1).length = tokens.length - 1 :=
    List.length_drop 1 tokens
  by_cases hle : seqLen ≤ tokens.dropLast.length
  · simp only [hle, if_true]
    refine ⟨_, _, _, rfl, ?_, ?_, ?_⟩
    · simp; omega
    · simp; omega
    · simp; omega
  · simp only [hle, if_false]
    obtain ⟨⟨s, t, g⟩, hp⟩ := pad3_total seqLen tokens.dropLast
      (tokens.drop 1) (List.replicate tokens.dropLast.length 1) (by omega)
    obtain ⟨p1, p2, p3⟩ := pad3_some_lengths seqLen _ _ _ _ _ _ hp
      (by omega) (by simp)
    exact ⟨s, t, g, hp, p1, p2, p3⟩

theorem clsLineInstance_lengths (label : Int) (tokens : List Nat)
    (seqLen : Nat) :
    ∃ s g, clsLineInstance label tokens seqLen = some (s, label, g) ∧
      s.length = seqLen ∧ g.length = seqLen := by
  rw [clsLineInstance]
  by_cases hle : seqLen ≤ tokens.length
  · simp only [hle, if_true]
    refine ⟨_, _, rfl, ?_, ?_⟩
    · simp; omega
    · simp; omega
  · simp only [hle, if_false]
    obtain ⟨⟨s, g⟩, hp⟩ := pad2_total seqLen tokens
      (List.replicate tokens.length 1) (by omega)
    obtain ⟨p1, p2⟩ := pad2_some_lengths seqLen _ _ _ _ hp (by simp)
    exact ⟨s, g, by rw [hp]; rfl, p1, p2⟩

theorem mlmLineInstance_lengths (V : Nat) (fl : Nat → ℚ) (ri : Nat → Nat)
    (retryFuel : Nat) (tokens : List Nat) (seqLen fi ii : Nat)
    (s t g : List Nat) (fi2 ii2 : Nat)
    (h : mlmLineInstance V fl ri retryFuel tokens seqLen fi ii =
      some ((s, t, g), fi2, ii2)) :
    s.length = seqLen ∧ t.length = seqLen ∧ g.length = seqLen := by
  rw [mlmLineInstance] at h
  split at h
  · simp at h
  · rename_i src tgt fi1 ii1 hm
    obtain ⟨hm1, hm2⟩ := mask_seq_lengths V fl ri retryFuel _ _ _ _ _ _ _ hm
    split at h
    · rename_i hle
      simp only [Option.some.injEq, Prod.mk.injEq] at h
      obtain ⟨⟨h1, h2, h3⟩, _⟩ := h
      subst h1; subst h2; subst h3
      refine ⟨by simp; omega, by simp; omega, by simp; omega⟩
    · rename_i hle
      simp only [Option.map_eq_some'] at h
      obtain ⟨⟨s1, t1, g1⟩, hp, heq⟩ := h
      simp only [Prod.mk.injEq] at heq
      obtain ⟨⟨h1, h2, h3⟩, _⟩ := heq
      subst h1; subst h2; subst h3
      exact pad3_some_lengths seqLen _ _ _ _ _ _ hp (by omega) (by simp)

theorem s2sLineInstance_lengths (srcTok tgtTok : List Nat) (seqLen : Nat) :
    ∃ s t g, s2sLineInstance srcTok tgtTok seqLen = some (s, t, g) ∧
      s.length = seqLen ∧ t.length = seqLen ∧ g.length = seqLen := by
  rw [s2sLineInstance]
  have hsp : ∃ s g, (if seqLen ≤ srcTok.length then
      some (srcTok.take seqLen, (List.replicate srcTok.length 1).take seqLen)
      else pad2 (srcTok, List.replicate srcTok.length 1) seqLen) =
      some (s, g) ∧ s.length = seqLen ∧ g.length = seqLen := by
    by_cases hle : seqLen ≤ srcTok.length
    · simp only [hle, if_true]
      refine ⟨_, _, rfl, ?_, ?_⟩
      · simp; omega
      · simp; omega
    · simp only [hle, if_false]
      obtain ⟨⟨s, g⟩, hp⟩ := pad2_total seqLen srcTok
        (List.replicate srcTok.length 1) (by omega)
      obtain ⟨p1, p2⟩ := pad2_some_lengths seqLen _ _ _ _ hp (by simp)
      exact ⟨s, g, hp, p1, p2⟩
  have htp : ∃ t, (if seqLen ≤ tgtTok.length then some (tgtTok.take seqLen)
      else pad1 tgtTok seqLen) = some t ∧ t.length = seqLen := by
    by_cases hle : seqLen ≤ tgtTok.length
    · simp only [hle, if_true]
      refine ⟨_, rfl, ?_⟩
      simp; omega
    · simp only [hle, if_false]
      obtain ⟨t, hp⟩ := pad1_total seqLen tgtTok (by omega)
      exact ⟨t, hp, pad1_some_lengths seqLen _ _ hp⟩
  obtain ⟨s, g, hsp1, hs1, hg1⟩ := hsp
  obtain ⟨t, htp1, ht1⟩ := htp
  rw [hsp1, htp1]
  exact ⟨s, t, g, rfl, hs1, ht1, hg1⟩

/-- C1: every fixed-length integer field of every instance emitted by any
builder (MLM+NSP, NSP-only, plain-LM, classification, MLM-only, seq2seq)
has exactly `seq_length` entries; in particular, with
`seq_length ≥ 3` the MLM+NSP assembly `[CLS]+A+[SEP]+B+[SEP]` never
exceeds `seq_length` after truncation (combined segment length at most
`seq_length - 3`), so the right-padding loop terminates with length exactly
`seq_length`. -/
theorem c1_fixed_length_fields (seqLen V retryFuel : Nat) (shortProb : ℚ)
    (fl : Nat → ℚ) (ri : Nat → Nat) :
    (∀ allDocs docIdx fi ii l fi2 ii2,
      bertCreateInsFromDoc allDocs docIdx seqLen shortProb V retryFuel fl ri
        fi ii = some (l, fi2, ii2) →
      ∀ ins ∈ l, ins.1.length = seqLen ∧ ins.2.1.length = seqLen ∧
        ins.2.2.2.length = seqLen) ∧
    (∀ allDocs docIdx fi ii l fi2 ii2,
      nspCreateInsFromDoc allDocs docIdx seqLen fl ri fi ii =
        some (l, fi2, ii2) →
      ∀ ins ∈ l, ins.1.length = seqLen ∧ ins.2.2.length = seqLen) ∧
    (∀ tokens, ∃ s t g, lmLineInstance tokens seqLen = some (s, t, g) ∧
      s.length = seqLen ∧ t.length = seqLen ∧ g.length = seqLen) ∧
    (∀ label tokens, ∃ s g,
      clsLineInstance label tokens seqLen = some (s, label, g) ∧
      s.length = seqLen ∧ g.length = seqLen) ∧
    (∀ tokens fi ii s t g fi2 ii2,
      mlmLineInstance V fl ri retryFuel tokens seqLen fi ii =
        some ((s, t, g), fi2, ii2) →
      s.length = seqLen ∧ t.length = seqLen ∧ g.length = seqLen) ∧
    (∀ srcTok tgtTok, ∃ s t g,
      s2sLineInstance srcTok tgtTok seqLen = some (s, t, g) ∧
      s.length = seqLen ∧ t.length = seqLen ∧ g.length = seqLen) ∧
    (3 ≤ seqLen → ∀ a2 b2 : List Nat,
      (a2.length : Int) + (b2.length : Int) ≤ (seqLen : Int) - 3 →
      (assembleSrc a2 b2).length ≤ seqLen ∧
      ∀ srcM tgt : List Nat, srcM.length = (assembleSrc a2 b2).length →
        ∃ p1 p2 p3, pad3 (srcM, tgt, assembleSeg a2 b2) seqLen =
          some (p1, p2, p3) ∧ p1.length = seqLen) := by
  refine ⟨?_, ?_, ?_, ?_, ?_, ?_, ?_⟩
  · intro allDocs docIdx fi ii l fi2 ii2 h
    exact bertCreate_lengths allDocs docIdx seqLen shortProb V retryFuel
      fl ri fi ii l fi2 ii2 h
  · intro allDocs docIdx fi ii l fi2 ii2 h
    exact nspCreate_lengths allDocs docIdx seqLen fl ri fi ii l fi2 ii2 h
  · intro tokens
    exact lmLineInstance_lengths tokens seqLen
  · intro label tokens
    exact clsLineInstance_lengths label tokens seqLen
  · intro tokens fi ii s t g fi2 ii2 h
    exact mlmLineInstance_lengths V fl ri retryFuel tokens seqLen fi ii
      s t g fi2 ii2 h
  · intro srcTok tgtTok
    exact s2sLineInstance_lengths srcTok tgtTok seqLen
  · intro h3 a2 b2 hlen
    have hsrc : (assembleSrc a2 b2).length ≤ seqLen := by
      rw [assembleSrc_length]
      omega
    refine ⟨hsrc, ?_⟩
    intro srcM tgt hm
    obtain ⟨⟨p1, p2, p3⟩, hp⟩ := pad3_total seqLen srcM tgt
      (assembleSeg a2 b2) (by omega)
    have hp2 : padWhile3 seqLen (seqLen + 1) (srcM, tgt, assembleSeg a2 b2) =
        some (p1, p2, p3) := hp
    obtain ⟨_, q1, _, _⟩ := padWhile3_spec seqLen _ _ _ _ _ _ _ hp2
    exact ⟨p1, p2, p3, hp, q1⟩

/-- Witness for C1 at a concrete input: the plain-LM builder on a two-token
line with `seq_length = 8`, and the assembly/padding conjunct for
`seq_length = 8` with segments of lengths 2 and 3. -/
theorem c1_fixed_length_fields_witness :
    (∃ s t g, lmLineInstance [5, 6] 8 = some (s, t, g) ∧
      s.length = 8 ∧ t.length = 8 ∧ g.length = 8) ∧
    ((assembleSrc [5, 6] [7, 8, 9]).length ≤ 8 ∧
      ∀ srcM tgt : List Nat,
        srcM.length = (assembleSrc [5, 6] [7, 8, 9]).length →
        ∃ p1 p2 p3, pad3 (srcM, tgt, assembleSeg [5, 6] [7, 8, 9]) 8 =
          some (p1, p2, p3) ∧ p1.length = 8) := by
  constructor
  · exact (c1_fixed_length_fields 8 10 4 0 (fun _ => 0) (fun _ => 0)).2.2.1
      [5, 6]
  · exact (c1_fixed_length_fields 8 10 4 0 (fun _ => 0)
      (fun _ => 0)).2.2.2.2.2.2 (by norm_num) [5, 6] [7, 8, 9] (by norm_num)

theorem pickDoc_lt (ri : Nat → Nat) (docIdx n : Nat) (hn : 1 ≤ n)
    (hd : docIdx < n) : ∀ fuel ii, (pickDoc ri docIdx n ii fuel).1 < n := by
  intro fuel
  induction fuel with
  | zero => intro ii; rw [pickDoc]; exact hd
  | succ m ih =>
    intro ii
    rw [pickDoc]
    have hlt : randintM ri ii 0 (n - 1) < n := by
      have hmod := Nat.mod_lt (ri ii) (show 0 < n - 1 + 1 - 0 by omega)
      simp only [randintM]
      omega
    by_cases h1 : randintM ri ii 0 (n - 1) ≠ docIdx
    · rw [if_pos h1]
      exact hlt
    · rw [if_neg h1]
      by_cases h2 : m = 0
      · rw [if_pos h2]
        exact hlt
      · rw [if_neg h2]
        exact ih (ii + 1)

theorem accumB_prefix (rdoc : List (List Nat)) (targetB : Int) :
    ∀ (j : Nat) (b : List Nat), b <+: accumB rdoc targetB j b := by
  intro j b
  induction j, b using accumB.induct rdoc targetB with
  | case1 j b hj =>
    rw [accumB, if_pos hj]
  | case2 j b hj hlen =>
    rw [accumB, if_neg hj, if_pos hlen]
    exact List.prefix_append b _
  | case3 j b hj hlen ih =>
    rw [accumB, if_neg hj, if_neg hlen]
    exact (List.prefix_append b _).trans ih


theorem accumB_first (rdoc : List (List Nat)) (targetB : Int) (j : Nat)
    (b : List Nat) (hj : j < rdoc.length) :
    (b ++ rdoc.getD j []) <+: accumB rdoc targetB j b := by
  rw [accumB, if_neg (by omega : ¬rdoc.length ≤ j)]
  by_cases hlen : targetB ≤ ((b ++ rdoc.getD j []).length : Int)
  · rw [if_pos hlen]
  · rw [if_neg hlen]
    exact accumB_prefix rdoc targetB (j + 1) (b ++ rdoc.getD j [])

theorem flatten_take_ne (chunk : List (List Nat)) (aEnd : Nat)
    (h1 : 1 ≤ aEnd) (hc : chunk ≠ []) (hs : ∀ s ∈ chunk, s ≠ []) :
    (chunk.take aEnd).flatten ≠ [] := by
  match chunk, aEnd with
  | c0 :: cs, k + 1 =>
    rw [List.take_succ_cons, List.flatten_cons]
    intro hnil
    exact hs c0 (by simp) (List.append_eq_nil.mp hnil).1

theorem flatten_drop_ne (chunk : List (List Nat)) (aEnd : Nat)
    (hlt : aEnd < chunk.length) (hs : ∀ s ∈ chunk, s ≠ []) :
    (chunk.drop aEnd).flatten ≠ [] := by
  have hd : chunk.drop aEnd ≠ [] := by
    rw [Ne, List.drop_eq_nil_iff]
    omega
  match hm : chunk.drop aEnd with
  | [] => exact absurd hm hd
  | c0 :: cs =>
    rw [List.flatten_cons]
    intro hnil
    have hc0 : c0 ∈ chunk := List.mem_of_mem_drop (by rw [hm]; simp)
    exact hs c0 hc0 (List.append_eq_nil.mp hnil).1

theorem chunkAEnd_pos (ri : Nat → Nat) (ii len : Nat) :
    1 ≤ (chunkAEnd ri ii len).1 := by
  rw [chunkAEnd]
  by_cases h : 2 ≤ len
  · rw [if_pos h]
    simp [randintM]
  · rw [if_neg h]

theorem chunkAEnd_lt (ri : Nat → Nat) (ii len : Nat) (h : 2 ≤ len) :
    (chunkAEnd ri ii len).1 < len := by
  rw [chunkAEnd, if_pos h]
  have hmod := Nat.mod_lt (ri ii) (show 0 < len - 1 + 1 - 1 by omega)
  simp only [randintM]
  omega

theorem chunkSegments_nonempty (allDocs : List (List (List Nat)))
    (docIdx : Nat) (chunk : List (List Nat)) (target : Int) (fl : Nat → ℚ)
    (ri : Nat → Nat) (fi ii : Nat)
    (hIdx : docIdx < allDocs.length)
    (hdocne : ∀ d ∈ allDocs, d ≠ [])
    (hsents : ∀ d ∈ allDocs, ∀ s ∈ d, s ≠ [])
    (hchunk : chunk ≠ []) (hsent : ∀ s ∈ chunk, s ≠ []) :
    ∃ a b isr c fi1 ii1,
      chunkSegments allDocs docIdx chunk target fl ri fi ii =
        some (a, b, isr, c, fi1, ii1) ∧ a ≠ [] ∧ b ≠ [] ∧ 1 ≤ c := by
  have hnD : 1 ≤ allDocs.length := by
    have := List.length_pos.mpr (show allDocs ≠ [] from by
      intro hnil
      rw [hnil] at hIdx
      simp at hIdx)
    omega
  rw [chunkSegments]
  by_cases hbr : (chunkIsRand fl fi chunk.length).1 = true
  · rw [if_pos hbr]
    have hpick : (chunkPick ri docIdx allDocs.length
        (chunkAEnd ri ii chunk.length).2).1 < allDocs.length := by
      rw [chunkPick]
      exact pickDoc_lt ri docIdx allDocs.length hnD hIdx 10
        (chunkAEnd ri ii chunk.length).2
    have hrdocmem : allDocs.getD (chunkPick ri docIdx allDocs.length
        (chunkAEnd ri ii chunk.length).2).1 [] ∈ allDocs := by
      rw [List.getD_eq_getElem _ _ hpick]
      exact List.getElem_mem hpick
    have hrdocne := hdocne _ hrdocmem
    have hlen0 : ¬((allDocs.getD (chunkPick ri docIdx allDocs.length
        (chunkAEnd ri ii chunk.length).2).1 []).length = 0) := by
      simpa [List.length_eq_zero] using hrdocne
    rw [if_neg hlen0]
    refine ⟨_, _, _, _, _, _, rfl, ?_, ?_, ?_⟩
    · exact flatten_take_ne chunk _ (chunkAEnd_pos ri ii chunk.length)
        hchunk hsent
    · have hrdlen : 1 ≤ (allDocs.getD (chunkPick ri docIdx allDocs.length
          (chunkAEnd ri ii chunk.length).2).1 []).length := by
        have := List.length_pos.mpr hrdocne
        omega
      have hrs : randintM ri (chunkPick ri docIdx allDocs.length
          (chunkAEnd ri ii chunk.length).2).2 0
          ((allDocs.getD (chunkPick ri docIdx allDocs.length
            (chunkAEnd ri ii chunk.length).2).1 []).length - 1) <
          (allDocs.getD (chunkPick ri docIdx allDocs.length
            (chunkAEnd ri ii chunk.length).2).1 []).length := by
        have hmod := Nat.mod_lt (ri (chunkPick ri docIdx allDocs.length
          (chunkAEnd ri ii chunk.length).2).2)
          (show 0 < (allDocs.getD (chunkPick ri docIdx allDocs.length
            (chunkAEnd ri ii chunk.length).2).1 []).length - 1 + 1 - 0 by
            omega)
        simp only [randintM]
        omega
      have hfmem : (allDocs.getD (chunkPick ri docIdx allDocs.length
          (chunkAEnd ri ii chunk.length).2).1 []).getD
          (randintM ri (chunkPick ri docIdx allDocs.length
            (chunkAEnd ri ii chunk.length).2).2 0
            ((allDocs.getD (chunkPick ri docIdx allDocs.length
              (chunkAEnd ri ii chunk.length).2).1 []).length - 1)) [] ∈
          (allDocs.getD (chunkPick ri docIdx allDocs.length
            (chunkAEnd ri ii chunk.length).2).1 []) := by
        rw [List.getD_eq_getElem _ _ hrs]
        exact List.getElem_mem hrs
      have hfne := hsents _ hrdocmem _ hfmem
      have hpre := accumB_first (allDocs.getD (chunkPick ri docIdx
          allDocs.length (chunkAEnd ri ii chunk.length).2).1 [])
        (target - (((chunk.take
          (chunkAEnd ri ii chunk.length).1).flatten.length : Nat) : Int))
        (randintM ri (chunkPick ri docIdx allDocs.length
          (chunkAEnd ri ii chunk.length).2).2 0
          ((allDocs.getD (chunkPick ri docIdx allDocs.length
            (chunkAEnd ri ii chunk.length).2).1 []).length - 1)) [] hrs
      intro hres
      rw [hres] at hpre
      rw [List.prefix_nil] at hpre
      simp only [List.nil_append] at hpre
      exact hfne hpre
    · exact chunkAEnd_pos ri ii chunk.length
  · rw [if_neg hbr]
    have hlen1 : chunk.length ≠ 1 := by
      intro h1
      apply hbr
      rw [chunkIsRand, h1]
      simp
    have hlen2 : 2 ≤ chunk.length := by
      have := List.length_pos.mpr hchunk
      omega
    refine ⟨_, _, _, _, _, _, rfl, ?_, ?_, ?_⟩
    · exact flatten_take_ne chunk _ (chunkAEnd_pos ri ii chunk.length)
        hchunk hsent
    · exact flatten_drop_ne chunk _ (chunkAEnd_lt ri ii chunk.length hlen2)
        hsent
    · have := List.length_pos.mpr hchunk
      omega

theorem chunkPairTrunc_nonempty (allDocs : List (List (List Nat)))
    (docIdx : Nat) (chunk : List (List Nat)) (target maxNT : Int)
    (fl : Nat → ℚ) (ri : Nat → Nat) (fi ii : Nat)
    (hmax : 2 ≤ maxNT)
    (hIdx : docIdx < allDocs.length)
    (hdocne : ∀ d ∈ allDocs, d ≠ [])
    (hsents : ∀ d ∈ allDocs, ∀ s ∈ d, s ≠ [])
    (hchunk : chunk ≠ []) (hsent : ∀ s ∈ chunk, s ≠ []) :
    ∃ a2 b2 isr c fi2 ii2,
      chunkPairTrunc allDocs docIdx chunk target maxNT fl ri fi ii =
        some (a2, b2, isr, c, fi2, ii2) ∧ 1 ≤ a2.length ∧ 1 ≤ b2.length ∧
        1 ≤ c ∧ (a2.length : Int) + (b2.length : Int) ≤ maxNT := by
  obtain ⟨a, b, isr, c, fi1, ii1, hcs, ha, hb, hc⟩ :=
    chunkSegments_nonempty allDocs docIdx chunk target fl ri fi ii hIdx
      hdocne hsents hchunk hsent
  obtain ⟨a2, b2, fi2, htr⟩ := truncate_total fl a b maxNT fi1 (by omega)
  obtain ⟨ha2, hb2⟩ := truncate_nonempty fl a b maxNT fi1 hmax ha hb
    a2 b2 fi2 htr
  obtain ⟨hle, _, _⟩ := truncate_post fl a b maxNT fi1 a2 b2 fi2 htr
  refine ⟨a2, b2, isr, c, fi2, ii1, ?_, List.length_pos.mpr ha2,
    List.length_pos.mpr hb2, hc, hle⟩
  rw [chunkPairTrunc, hcs]
  dsimp only
  rw [htr]

theorem nspLoop_total (allDocs : List (List (List Nat))) (docIdx : Nat)
    (doc : List (List Nat)) (target : Int) (seqLen : Nat) (fl : Nat → ℚ)
    (ri : Nat → Nat) (hseq : 5 ≤ seqLen) (hIdx : docIdx < allDocs.length)
    (hdocne : ∀ d ∈ allDocs, d ≠ [])
    (hsents : ∀ d ∈ allDocs, ∀ s ∈ d, s ≠ [])
    (hdoc : ∀ s ∈ doc, s ≠ []) :
    ∀ (fuel i fi ii : Nat), doc.length - i < fuel →
      ∃ l fi2 ii2, nspLoop allDocs docIdx doc target ((seqLen : Int) - 3)
        seqLen fl ri fuel i fi ii = some (l, fi2, ii2) := by
  intro fuel
  induction fuel with
  | zero => intro i fi ii hf; omega
  | succ m ih =>
    intro i fi ii hf
    by_cases hi : doc.length ≤ i
    · refine ⟨[], fi, ii, ?_⟩
      simp only [nspLoop]
      rw [if_pos hi]
    · have hchunk : (doc.drop i).take (scanChunk doc target i 0 - i + 1) ≠
          [] := by
        rw [Ne, List.take_eq_nil_iff]
        push_neg
        constructor
        · omega
        · rw [Ne, List.drop_eq_nil_iff]
          omega
      have hsentc : ∀ s ∈ (doc.drop i).take (scanChunk doc target i 0 - i +
          1), s ≠ [] := by
        intro s hs
        exact hdoc s (List.mem_of_mem_drop (List.mem_of_mem_take hs))
      obtain ⟨a2, b2, isr, c, fi2x, ii2x, hpair, ha2, hb2, hc, hle⟩ :=
        chunkPairTrunc_nonempty allDocs docIdx
          ((doc.drop i).take (scanChunk doc target i 0 - i + 1)) target
          ((seqLen : Int) - 3) fl ri fi ii (by omega) hIdx hdocne hsents
          hchunk hsentc
      have hsrcle : (assembleSrc a2 b2).length ≤ seqLen := by
        rw [assembleSrc_length]
        omega
      obtain ⟨⟨s, g⟩, hp⟩ := pad2_total seqLen (assembleSrc a2 b2)
        (assembleSeg a2 b2) hsrcle
      obtain ⟨l, fi3, ii3, hrec⟩ := ih (i + c) fi2x ii2x (by omega)
      refine ⟨(s, isr, g) :: l, fi3, ii3, ?_⟩
      simp only [nspLoop]
      rw [if_neg hi, hpair]
      dsimp only
      rw [if_pos ⟨ha2, hb2⟩, hp]
      dsimp only
      rw [hrec]

/-- C4 (amended): provided every document in the buffer is non-empty and
every sentence of every document is non-empty (which the MLM+NSP segmenter
guarantees by dropping empty sentences, but the NSP segmenter does not),
and `max_num_tokens = seq_length - 3 ≥ 2`: at the assert site both
truncated segments satisfy `len ≥ 1` for every non-empty chunk of
non-empty sentences, and the whole NSP builder completes with the
assertions never firing. -/
theorem c4_nsp_assertions_hold (allDocs : List (List (List Nat)))
    (docIdx : Nat) (seqLen : Nat) (fl : Nat → ℚ) (ri : Nat → Nat)
    (fi ii : Nat) (target : Int) (hseq : 5 ≤ seqLen)
    (hIdx : docIdx < allDocs.length)
    (hdocne : ∀ d ∈ allDocs, d ≠ [])
    (hsents : ∀ d ∈ allDocs, ∀ s ∈ d, s ≠ []) :
    (∀ chunk : List (List Nat), chunk ≠ [] → (∀ s ∈ chunk, s ≠ []) →
      ∃ a2 b2 isr c fi2 ii2,
        chunkPairTrunc allDocs docIdx chunk target ((seqLen : Int) - 3)
          fl ri fi ii = some (a2, b2, isr, c, fi2, ii2) ∧
        1 ≤ a2.length ∧ 1 ≤ b2.length) ∧
    (∃ l fi2 ii2, nspCreateInsFromDoc allDocs docIdx seqLen fl ri fi ii =
      some (l, fi2, ii2)) := by
  constructor
  · intro chunk hchunk hsent
    obtain ⟨a2, b2, isr, c, fi2, ii2, hpair, ha2, hb2, _, _⟩ :=
      chunkPairTrunc_nonempty allDocs docIdx chunk target
        ((seqLen : Int) - 3) fl ri fi ii (by omega) hIdx hdocne hsents
        hchunk hsent
    exact ⟨a2, b2, isr, c, fi2, ii2, hpair, ha2, hb2⟩
  · have hdocmem : allDocs.getD docIdx [] ∈ allDocs := by
      rw [List.getD_eq_getElem _ _ hIdx]
      exact List.getElem_mem hIdx
    obtain ⟨l, fi2, ii2, hrun⟩ := nspLoop_total allDocs docIdx
      (allDocs.getD docIdx []) ((seqLen : Int) - 3) seqLen fl ri hseq hIdx
      hdocne hsents (hsents _ hdocmem) ((allDocs.getD docIdx []).length + 1)
      0 fi ii (by omega)
    exact ⟨l, fi2, ii2, hrun⟩

/-- Witness for the amended C4 at a concrete input: one buffer holding one
document with one non-empty sentence, `seq_length = 7`. -/
theorem c4_nsp_assertions_hold_witness :
    ∃ l fi2 ii2,
      nspCreateInsFromDoc [[[5]]] 0 7 (fun _ => 0) (fun _ => 0) 0 0 =
        some (l, fi2, ii2) :=
  (c4_nsp_assertions_hold [[[5]]] 0 7 (fun _ => 0) (fun _ => 0) 0 0 4
    (by norm_num) (by norm_num) (by simp) (by simp)).2

/-- C4 counterexample: a buffer the NSP segmenter can build (it appends
sentences without the length check the MLM+NSP segmenter has) holding one
document whose only sentence is empty.  With `seq_length = 7`
(`max_num_tokens = 4 ≥ 2`) the value at the assert site has
`tokens_a = []`, so `assert len(tokens_a) >= 1` fires and the builder
aborts instead of emitting: the claim that the assertions never fire for
every documents buffer is false. -/
theorem c4_assert_fires_counterexample :
    chunkPairTrunc [[[]]] 0 [[]] 4 4 (fun _ => 0) (fun _ => 0) 0 0 =
      some ([], [], 1, 1, 0, 11) ∧
    ¬(1 ≤ ([] : List Nat).length) ∧
    nspCreateInsFromDoc [[[]]] 0 7 (fun _ => 0) (fun _ => 0) 0 0 = none := by
  have hpick : pickDoc (fun _ => 0) 0 1 0 10 = (0, 10) := by
    simp [pickDoc, randintM]
  have haccum : accumB [[]] 4 0 [] = [] := by
    rw [accumB]
    norm_num
    rw [accumB]
    norm_num
  have hcs : chunkSegments [[[]]] 0 [[]] 4 (fun _ => 0) (fun _ => 0) 0 0 =
      some ([], [], 1, 1, 0, 11) := by
    rw [chunkSegments]
    simp [chunkIsRand, chunkAEnd, chunkPick, hpick, randintM, haccum]
  have htr : truncate_seq_pair (fun _ => 0) [] [] 4 0 = some ([], [], 0) :=
    truncate_of_le _ _ _ _ _ (by norm_num)
  have hcpt : chunkPairTrunc [[[]]] 0 [[]] 4 4 (fun _ => 0) (fun _ => 0)
      0 0 = some ([], [], 1, 1, 0, 11) := by
    rw [chunkPairTrunc, hcs]
    dsimp only
    rw [htr]
  refine ⟨hcpt, by norm_num, ?_⟩
  have hscan : scanChunk [[]] (((7 : Nat) : Int) - 3) 0 0 = 0 := by
    rw [scanChunk]
    norm_num
  rw [nspCreateInsFromDoc]
  simp only [nspLoop, List.getD]
  norm_num [hscan]
  rw [hcpt]
  norm_num

theorem fillBufLoop_repeat_mono (file : List (List Nat)) (bufSize : Nat) :
    ∀ (fuel : Nat) (s s2 : BLoader), fillBufLoop file bufSize fuel s =
      some s2 → s.repeatRead = true → s2.repeatRead = true := by
  intro fuel
  induction fuel with
  | zero => intro s s2 h; simp [fillBufLoop] at h
  | succ m ih =>
    intro s s2 h hrep
    rw [fillBufLoop] at h
    split at h
    · split at h
      · simp only [Option.some.injEq] at h
        rw [← h]
      · exact ih _ _ h hrep
    · rw [if_neg (by rw [hrep]; simp)] at h
      split at h
      · simp at h
      · split at h
        · simp only [Option.some.injEq] at h
          rw [← h]
        · exact ih _ _ h hrep

/-- C6 (amended): (a) when the buffer is non-empty and repeat-read was
never set, a refill only reshuffles the buffer in place and resets the
cursors — the file position and the count of `pickle.load` attempts are
unchanged, so no file read happens and iteration can continue off the same
buffer forever; (b) once `repeat_read_dataset` is true it stays true
through every refill; (c) in repeat-read mode an end-of-file during the
read loop rewinds the file to the start, reads the first batch again and
continues. -/
theorem c6_loader_refill_modes (file : List (List Nat)) (bufSize : Nat)
    (sh : List Nat → List Nat) (fuel : Nat) (s : BLoader) :
    (0 < s.buffer.length → s.repeatRead = false →
      fillBuf file bufSize sh fuel s =
        some ⟨sh s.buffer, 0, (sh s.buffer).length, false, s.filePos,
          s.loads⟩) ∧
    (∀ s2, fillBuf file bufSize sh fuel s = some s2 →
      s.repeatRead = true → s2.repeatRead = true) ∧
    (∀ batch rest, file = batch :: rest → s.repeatRead = true →
      file.length ≤ s.filePos →
      fillBufLoop file bufSize (fuel + 1) s =
        if bufSize < (s.buffer ++ batch).length then
          some ⟨s.buffer ++ batch, s.start, s.endPos, true, 1, s.loads + 2⟩
        else fillBufLoop file bufSize fuel
          ⟨s.buffer ++ batch, s.start, s.endPos, s.repeatRead, 1,
            s.loads + 2⟩) := by
  refine ⟨?_, ?_, ?_⟩
  · intro hb hrep
    rw [fillBuf, if_pos ⟨hb, hrep⟩, hrep]
  · intro s2 h hrep
    rw [fillBuf] at h
    split at h
    · rename_i hcond
      exact absurd hrep (by simp [hcond.2])
    · split at h
      · simp at h
      · rename_i s1 hloop
        have h1 := fillBufLoop_repeat_mono file bufSize fuel _ _ hloop
          (by simpa using hrep)
        simp only [Option.some.injEq] at h
        rw [← h]
        exact h1
  · intro batch rest hfile hrep hpos
    subst hfile
    rw [fillBufLoop]
    rw [dif_neg (by omega : ¬s.filePos < (batch :: rest).length)]
    rw [if_neg (by rw [hrep]; simp)]

/-- Witness for the amended C6 at a concrete input: a loader state with two
buffered instances and repeat-read unset reshuffles without any load
attempt. -/
theorem c6_loader_refill_modes_witness :
    fillBuf [] 5 id 1 ⟨[1, 2], 0, 2, false, 1, 1⟩ =
      some ⟨[1, 2], 0, 2, false, 1, 1⟩ :=
  (c6_loader_refill_modes [] 5 id 1 ⟨[1, 2], 0, 2, false, 1, 1⟩).1
    (by norm_num) rfl

/-- C6 counterexample: an empty shard file (reachable: a build worker whose
partition holds no document writes an empty `.pt` file).  The first refill
consumes the whole file with `repeat_read_dataset` still False and the
buffer never over capacity — the hypothesis of the claim — yet the second
refill performs another `pickle.load` attempt (the loads counter grows),
because the buffer is empty and the no-read reshuffle branch is skipped:
the claim that every subsequent refill performs no file read at all is
false on this input. -/
theorem c6_empty_shard_counterexample :
    fillBuf [] 100 id 3 ⟨[], 0, 0, false, 0, 0⟩ =
      some ⟨[], 0, 0, false, 0, 1⟩ ∧
    fillBuf [] 100 id 3 ⟨[], 0, 0, false, 0, 1⟩ =
      some ⟨[], 0, 0, false, 0, 2⟩ := by
  exact ⟨rfl, rfl⟩

/-- C7 (amended): each iteration step takes the slice of the buffer that
starts at `start + proc_id*batch_size` (element `j` of the slice is buffer
element `start + proc_id*batch_size + j`), and the slice holds exactly
`batch_size` instances provided the buffer extends beyond one full stride
(`start + batch_size*proc_num < end ≤ len(buffer)`, the state the refill
gives whenever the buffer holds more than `batch_size*proc_num`
instances); the cursor then advances by `batch_size*proc_num`; consumers
with distinct `proc_id` below `proc_num` read pairwise disjoint buffer
index sets across all steps of one refill epoch; and a refill is triggered
exactly when `start + batch_size*proc_num ≥ end`. -/
theorem c7_iter_batches (buffer : List Nat) (start bs pid pn endPos : Nat) :
    (start + bs * pn < endPos → endPos ≤ buffer.length → pid < pn →
      (iterSlice buffer start bs pid).length = bs) ∧
    (∀ j, j < bs →
      (iterSlice buffer start bs pid)[j]? =
        buffer[start + pid * bs + j]?) ∧
    (iterAdvance start bs pn = start + bs * pn) ∧
    (∀ s0 pid2 k1 k2 j1 j2, pid < pn → pid2 < pn → pid ≠ pid2 →
      j1 < bs → j2 < bs →
      sliceIdx s0 bs pn pid k1 j1 ≠ sliceIdx s0 bs pn pid2 k2 j2) ∧
    (loaderEmpty start bs pn endPos = true ↔ endPos ≤ start + bs * pn) := by
  refine ⟨?_, ?_, rfl, ?_, ?_⟩
  · intro h1 h2 h3
    have hmul : pid * bs + bs ≤ bs * pn := by
      have h := Nat.mul_le_mul_right bs (show pid + 1 ≤ pn by omega)
      rw [Nat.add_mul, Nat.one_mul] at h
      rw [Nat.mul_comm bs pn]
      exact h
    rw [iterSlice]
    rw [List.length_take, List.length_drop]
    omega
  · intro j hj
    rw [iterSlice]
    rw [List.getElem?_take_of_lt hj, List.getElem?_drop]
  · intro s0 pid2 k1 k2 j1 j2 hp1 hp2 hne hj1 hj2 heq
    have hbs : 0 < bs := by omega
    have hr1 : pid * bs + j1 < bs * pn := by
      have : (pid + 1) * bs ≤ pn * bs := Nat.mul_le_mul_right bs (by omega)
      have : bs * pn = pn * bs := Nat.mul_comm bs pn
      nlinarith
    have hr2 : pid2 * bs + j2 < bs * pn := by
      have : (pid2 + 1) * bs ≤ pn * bs := Nat.mul_le_mul_right bs (by omega)
      have : bs * pn = pn * bs := Nat.mul_comm bs pn
      nlinarith
    rw [sliceIdx, sliceIdx] at heq
    have heq2 : bs * pn * k1 + (pid * bs + j1) =
        bs * pn * k2 + (pid2 * bs + j2) := by
      rw [Nat.mul_comm (bs * pn) k1, Nat.mul_comm (bs * pn) k2]
      omega
    have hmod : pid * bs + j1 = pid2 * bs + j2 := by
      have hm := congrArg (fun z => z % (bs * pn)) heq2
      simp only [Nat.mul_add_mod] at hm
      rw [Nat.mod_eq_of_lt hr1, Nat.mod_eq_of_lt hr2] at hm
      exact hm
    have hdiv : pid = pid2 := by
      have hd := congrArg (fun z => z / bs) hmod
      simp only at hd
      rw [Nat.mul_comm pid bs, Nat.mul_comm pid2 bs] at hd
      rw [Nat.mul_add_div hbs, Nat.mul_add_div hbs] at hd
      rw [Nat.div_eq_of_lt hj1, Nat.div_eq_of_lt hj2] at hd
      omega
    exact hne hdiv
  · rw [loaderEmpty]
    exact decide_eq_true_iff

/-- Witness for the amended C7 at a concrete input: a ten-instance buffer,
batch size 2, two consumers, consumer 1. -/
theorem c7_iter_batches_witness :
    (iterSlice [0, 1, 2, 3, 4, 5, 6, 7, 8, 9] 0 2 1).length = 2 ∧
    (loaderEmpty 0 2 2 5 = true ↔ (5 : Nat) ≤ 0 + 2 * 2) :=
  ⟨(c7_iter_batches [0, 1, 2, 3, 4, 5, 6, 7, 8, 9] 0 2 1 2 5).1
      (by norm_num) (by norm_num) (by norm_num),
    (c7_iter_batches [0, 1, 2, 3, 4, 5, 6, 7, 8, 9] 0 2 1 2 5).2.2.2.2⟩

/-- C7 counterexample: a shard holding three instances, batch size 2, two
consumers.  The refill (non-repeat, small shard) ends with the buffer
[10, 11, 12], cursors start = 0 and end = 3, so `_empty` is true and a
refill is triggered before every step, yet consumer 1 receives the slice
`buffer[2:4] = [12]` of length 1, not `batch_size = 2`: the claim that
each iteration step yields exactly `batch_size` instances is false. -/
theorem c7_short_batch_counterexample :
    fillBuf [[10, 11, 12]] 100 id 3 ⟨[], 0, 0, false, 0, 0⟩ =
      some ⟨[10, 11, 12], 0, 3, false, 1, 2⟩ ∧
    loaderEmpty 0 2 2 3 = true ∧
    (iterSlice [10, 11, 12] 0 2 1).length = 1 := by
  exact ⟨rfl, rfl, rfl⟩

/-- C8 (amended): a read attempt that raises a decode error is caught and
the loop retries with the parse state (open document, documents buffer,
dumped output) unchanged — the failure is never fatal — but `pos` is
incremented by the `finally` clause on every attempt, successful or not,
so failed attempts are counted as consumed lines by the partition
accounting. -/
theorem c8_failed_read_retries (att : Nat → LineRead)
    (bufSize endPos pos : Nat) (document : List (List Nat))
    (buf : List (List (List Nat))) (out : List (List (List (List Nat))))
    (herr : att pos = LineRead.err) :
    bertWorkerStep att bufSize endPos pos document buf out =
      WorkerNext.cont (pos + 1) document buf out := by
  rw [bertWorkerStep, herr]

/-- Witness for the amended C8 at a concrete input. -/
theorem c8_failed_read_retries_witness :
    bertWorkerStep (fun _ => LineRead.err) 1 20 3 [] [] [] =
      WorkerNext.cont 4 [] [] [] :=
  c8_failed_read_retries (fun _ => LineRead.err) 1 20 3 [] [] [] rfl

/-- C8 counterexample: one failed read attempt at position 5 leaves the
loop state unchanged but moves `pos` to 6 — the `finally: pos += 1`
clause runs even on the `except: continue` path, so the claim that `pos`
is unchanged by a failed read attempt (and that only successfully read
lines are counted) is false. -/
theorem c8_pos_advances_counterexample :
    bertWorkerStep (fun _ => LineRead.err) 64 100 5 [] [] [] =
      WorkerNext.cont 6 [] [] [] ∧ (6 : Nat) ≠ 5 := by
  exact ⟨rfl, by norm_num⟩

theorem bertWorkerRun_blank_diverges (att : Nat → LineRead)
    (bufSize endPos : Nat) :
    ∀ (fuel pos : Nat) (buf : List (List (List Nat)))
      (out : List (List (List (List Nat)))),
      (∀ m, pos ≤ m → att m = LineRead.blank) → buf.length ≠ bufSize →
      bertWorkerRun att bufSize endPos fuel pos [] buf out = none := by
  intro fuel
  induction fuel with
  | zero => intro pos buf out hblank hbuf; rfl
  | succ m ih =>
    intro pos buf out hblank hbuf
    have hstep : bertWorkerStep att bufSize endPos pos [] buf out =
        WorkerNext.cont (pos + 1) [] buf out := by
      rw [bertWorkerStep, hblank pos (le_refl pos)]
      simp [hbuf]
    rw [bertWorkerRun, hstep]
    exact ih (pos + 1) buf out (fun k hk => hblank k (by omega)) hbuf

/-- The read outcomes of the four-line corpus "a", "b", "", "" (two
sentences then two blank lines; every later attempt reads the empty string
at end-of-file, which strips to blank). -/
def att9 : Nat → LineRead := fun n =>
  if n = 0 then LineRead.sent [5]
  else if n = 1 then LineRead.sent [6] else LineRead.blank

/-- C9: the `BertDataset.worker` read loop does not terminate on the
four-line corpus "a", "b", "", "" with one worker (`start = 0`,
`end = lines_num = 4`, buffer capacity 64): the break test
`pos >= end - 1` sits in the non-blank branch, so once the partition tail
is blank lines followed by end-of-file the loop reads the empty string
forever and the break is never reached — for every fuel the run is still
`none`, so `pool.join` never returns. -/
theorem c9_bert_worker_diverges :
    ∀ fuel, bertWorkerRun att9 64 4 fuel 0 [] [] [] = none := by
  have hstepeq : ∀ (f pos : Nat) (d : List (List Nat))
      (b : List (List (List Nat))) (o p2 : _) (d2 : List (List Nat))
      (b2 : List (List (List Nat))) (o2 : List (List (List (List Nat)))),
      bertWorkerStep att9 64 4 pos d b o = WorkerNext.cont p2 d2 b2 o2 →
      bertWorkerRun att9 64 4 (f + 1) pos d b o =
        bertWorkerRun att9 64 4 f p2 d2 b2 o2 := by
    intro f pos d b o p2 d2 b2 o2 hstep
    rw [bertWorkerRun, hstep]
  have h0 : bertWorkerStep att9 64 4 0 [] [] [] =
      WorkerNext.cont 1 [[5]] [] [] := rfl
  have h1 : bertWorkerStep att9 64 4 1 [[5]] [] [] =
      WorkerNext.cont 2 [[5], [6]] [] [] := rfl
  have h2 : bertWorkerStep att9 64 4 2 [[5], [6]] [] [] =
      WorkerNext.cont 3 [] [[[5], [6]]] [] := rfl
  have hbl : ∀ m, 3 ≤ m → att9 m = LineRead.blank := by
    intro m hm
    rw [att9]
    rw [if_neg (by omega), if_neg (by omega)]
  intro fuel
  match fuel with
  | 0 => rfl
  | 1 => rfl
  | 2 => rfl
  | (n + 3) =>
    calc bertWorkerRun att9 64 4 (n + 3) 0 [] [] []
        = bertWorkerRun att9 64 4 (n + 2) 1 [[5]] [] [] :=
          hstepeq (n + 2) 0 [] [] [] 1 [[5]] [] [] h0
      _ = bertWorkerRun att9 64 4 (n + 1) 2 [[5], [6]] [] [] :=
          hstepeq (n + 1) 1 [[5]] [] [] 2 [[5], [6]] [] [] h1
      _ = bertWorkerRun att9 64 4 n 3 [] [[[5], [6]]] [] :=
          hstepeq n 2 [[5], [6]] [] [] 3 [] [[[5], [6]]] [] h2
      _ = none := bertWorkerRun_blank_diverges att9 64 4 n 3 [[[5], [6]]]
          [] hbl (by norm_num)
